import Mathlib

set_option maxRecDepth 1000000
set_option maxHeartbeats 4000000

/-!
# Verification of the Cornell-note extraction pipeline

Shallow embedding, in Lean 4, of the text-to-note extraction pipeline of the
`agile-notesmith` repository, together with theorems settling the frozen
specification claims.

The embedded code comes from:
* `src/lib/sanitize` (the `sanitize` function),
* `src/components/CornellNoteGenerator.tsx` (the current component: question
  filtering, scoring, deduplication, advisory validation),
* the earlier snapshot of the same component (the version with the 300-word
  gate, `getUniqueAnswer`, evidence-based strict validation); definitions from
  that snapshot carry a `V1` suffix.

JavaScript strings are modelled as Lean `String` (a list of characters);
JavaScript numbers that the code uses as non-negative integers are modelled as
`Nat` (`Math.max(0, s - 2)` is exactly truncated subtraction), and the
similarity ratio is modelled as `ℚ`.  The JS regular expressions used by the
code are embedded as explicit, executable scanners with the same matching
semantics (leftmost match, greedy quantifiers, the `\s`/`\b`/`^`/`$`
conventions of JS `RegExp` with the `g`/`i`/`m` flags used at each site).
-/

/-! ## Character classes and JS string primitives -/

/-- The characters matched by the JS regex class `\s` (ASCII fragment). -/
def isWsChar (c : Char) : Bool :=
  c = ' ' || c = '\t' || c = '\n' || c = '\r' || c = '\x0b' || c = '\x0c'

/-- Sentence-terminal punctuation, the JS regex class `[.!?]`. -/
def isTermChar (c : Char) : Bool :=
  c = '.' || c = '!' || c = '?'

/-- The characters matched by the JS regex class `\w` (word characters). -/
def isWordChar (c : Char) : Bool :=
  c.isAlpha || c.isDigit || c = '_'

/-- ASCII lowercase letters, the JS regex class `[a-z]`. -/
def isLowerAZ (c : Char) : Bool :=
  'a' ≤ c && c ≤ 'z'

/-- ASCII uppercase letters, the JS regex class `[A-Z]`. -/
def isUpperAZ (c : Char) : Bool :=
  'A' ≤ c && c ≤ 'Z'

/-- ASCII digits, the JS regex class `\d`. -/
def isDigitChar (c : Char) : Bool :=
  c.isDigit

/-- `String.prototype.toLowerCase` on the ASCII fragment. -/
def jsToLower (l : List Char) : List Char :=
  l.map Char.toLower

/-- Left trim: drop leading whitespace. -/
def trimLeft (l : List Char) : List Char :=
  l.dropWhile isWsChar

/-- Right trim: drop trailing whitespace. -/
def trimRight (l : List Char) : List Char :=
  (l.reverse.dropWhile isWsChar).reverse

/-- `String.prototype.trim`. -/
def jsTrim (l : List Char) : List Char :=
  trimRight (trimLeft l)

/-- `split` on runs of characters satisfying `p`, with JS `String.split(regex)`
semantics for a `/[c]+/` pattern: a separator at either end contributes an
empty piece, and the empty string yields `[""]`.  The state is `some cur`
(collecting the reversed current piece) or `none` (inside a separator run,
the piece before it already emitted). -/
def splitRunsGo (p : Char → Bool) : Option (List Char) → List Char → List (List Char)
  | some cur, [] => [cur.reverse]
  | none, [] => [[]]
  | some cur, c :: rest =>
    if p c then cur.reverse :: splitRunsGo p none rest
    else splitRunsGo p (some (c :: cur)) rest
  | none, c :: rest =>
    if p c then splitRunsGo p none rest
    else splitRunsGo p (some [c]) rest

/-- JS `s.split(/[…]+/)` where the bracket class is `p`. -/
def splitRuns (p : Char → Bool) (l : List Char) : List (List Char) :=
  splitRunsGo p (some []) l

/-- JS `s.split(c)` for a single literal character (no run collapsing). -/
def splitOnCharGo (sep : Char) : List Char → List Char → List (List Char)
  | cur, [] => [cur.reverse]
  | cur, c :: rest =>
    if c = sep then cur.reverse :: splitOnCharGo sep [] rest
    else splitOnCharGo sep (c :: cur) rest

/-- JS `s.split(c)` for a single literal character. -/
def splitOnChar (sep : Char) (l : List Char) : List (List Char) :=
  splitOnCharGo sep [] l

/-- JS `a.includes(b)` on strings: substring containment. -/
def jsIncludes (hay needle : List Char) : Bool :=
  decide (needle <:+: hay)

/-- JS `a.startsWith(b)` on strings. -/
def jsStartsWith (l pre : List Char) : Bool :=
  pre.isPrefixOf l

/-- JS `a.endsWith(b)` for a single-character suffix. -/
def jsEndsWithChar (l : List Char) (c : Char) : Bool :=
  l.getLast? = some c

/-- JS `[...new Set(xs)]`: deduplication keeping first occurrences.  `seen`
accumulates the values already emitted. -/
def jsDedupGo [DecidableEq α] (seen : List α) : List α → List α
  | [] => []
  | a :: rest =>
    if a ∈ seen then jsDedupGo seen rest
    else a :: jsDedupGo (a :: seen) rest

/-- JS `[...new Set(xs)]`. -/
def jsDedup [DecidableEq α] (l : List α) : List α :=
  jsDedupGo [] l

/-- The word list of a string as the scoring code computes it:
`s.split(/\s+/)` (on the already lowercased or raw string as each call site
requires). -/
def jsSplitWs (l : List Char) : List (List Char) :=
  splitRuns isWsChar l

/-- JS `xs.join(sep)`. -/
def jsJoin (sep : List Char) (xs : List (List Char)) : List Char :=
  List.intercalate sep xs

/-! String-level wrappers (the pipeline functions take and return `String`). -/

/-- `toLowerCase` on `String`. -/
def jsToLowerStr (s : String) : String :=
  ⟨jsToLower s.data⟩

/-- `trim` on `String`. -/
def jsTrimStr (s : String) : String :=
  ⟨jsTrim s.data⟩

/-- `s.split(/[.!?]+/)` on `String`. -/
def splitSentences (s : String) : List String :=
  (splitRuns isTermChar s.data).map (fun l => (⟨l⟩ : String))

/-- `s.split(/\s+/)` on `String`. -/
def splitWsStr (s : String) : List String :=
  (jsSplitWs s.data).map (fun l => (⟨l⟩ : String))

/-- `a.includes(b)` on `String`. -/
def jsIncludesStr (hay needle : String) : Bool :=
  jsIncludes hay.data needle.data

/-! ## `calculateSimilarity`
Embeds `calculateSimilarity` of `src/components/CornellNoteGenerator.tsx`
(identical in the earlier snapshot):
```js
const words1 = str1.toLowerCase().split(/\s+/);
const words2 = str2.toLowerCase().split(/\s+/);
const intersection = words1.filter(word => words2.includes(word)).length;
const union = new Set([...words1, ...words2]).size;
return intersection / union;
```
-/

/-- The lowercased word list of a sentence, as `calculateSimilarity` builds it. -/
def simWords (s : String) : List String :=
  splitWsStr (jsToLowerStr s)

/-- `words1.filter(word => words2.includes(word)).length` (here `includes` is
`Array.prototype.includes`, i.e. membership). -/
def simInter (str1 str2 : String) : Nat :=
  ((simWords str1).filter (fun w => (simWords str2).contains w)).length

/-- `new Set([...words1, ...words2]).size`. -/
def simUnion (str1 str2 : String) : Nat :=
  (jsDedup (simWords str1 ++ simWords str2)).length

/-- `calculateSimilarity` itself, with the float division modelled exactly in `ℚ`. -/
def calculateSimilarity (str1 str2 : String) : ℚ :=
  (simInter str1 str2 : ℚ) / (simUnion str1 str2 : ℚ)

/-! ## `removeDuplicates` (the deduplication pass)
Embeds `removeDuplicates` (identical in both versions of the component):
candidates are processed in order; a candidate similar (`> 0.7`) to an
already-accepted one has its score replaced by `Math.max(0, score - 2)` and is
kept only if the result is still positive. -/

/-- A takeaway suggestion (`interface TakeawaySuggestion`). -/
structure TakeawaySuggestion where
  sentence : String
  score : Nat
  selected : Bool
deriving DecidableEq, Repr

/-- The similarity threshold `0.7` of the JS source as an exact rational. -/
def simThreshold : ℚ := 7 / 10

/-- One step of the `suggestions.forEach` loop of `removeDuplicates`:
`filtered` is the accumulator of already-accepted suggestions. -/
def removeDuplicatesGo (filtered : List TakeawaySuggestion) :
    List TakeawaySuggestion → List TakeawaySuggestion
  | [] => filtered
  | suggestion :: rest =>
    let isDuplicate := filtered.any fun existing =>
      decide (simThreshold < calculateSimilarity suggestion.sentence existing.sentence)
    if isDuplicate then
      let penalized : TakeawaySuggestion :=
        { suggestion with score := suggestion.score - 2 }
      if 0 < penalized.score then removeDuplicatesGo (filtered ++ [penalized]) rest
      else removeDuplicatesGo filtered rest
    else removeDuplicatesGo (filtered ++ [suggestion]) rest

/-- `removeDuplicates` of the component. `Math.max(0, score - 2)` is `Nat`
truncated subtraction. -/
def removeDuplicates (suggestions : List TakeawaySuggestion) : List TakeawaySuggestion :=
  removeDuplicatesGo [] suggestions

/-! A second definition of the deduplication pass, written from the words of
the specification (C1), to be proved equal to the embedded code. -/

/-- Deduplication as the specification describes it: process candidates in
order; a candidate whose similarity to some already-accepted candidate exceeds
`0.7` has exactly `2` subtracted from its score (clamped at `0`) and is kept if
and only if the penalized score remains strictly positive; a candidate with no
accepted near-duplicate is accepted with its score unchanged. -/
def dedupeSpecGo (accepted : List TakeawaySuggestion) :
    List TakeawaySuggestion → List TakeawaySuggestion
  | [] => accepted
  | c :: rest =>
    if ∃ a ∈ accepted, simThreshold < calculateSimilarity c.sentence a.sentence then
      let penalizedScore := c.score - 2
      if 0 < penalizedScore then
        dedupeSpecGo (accepted ++ [{ c with score := penalizedScore }]) rest
      else dedupeSpecGo accepted rest
    else dedupeSpecGo (accepted ++ [c]) rest

/-- The specification's description of the deduplication pass. -/
def dedupeSpec (suggestions : List TakeawaySuggestion) : List TakeawaySuggestion :=
  dedupeSpecGo [] suggestions

/-! ## The candidate scorer
Embeds the scoring block of `extractTakeawaySuggestions` (identical in both
versions of the component). -/

/-- The starter verbs of the `+3` pattern
`/^(it|this|the)\s+(is|introduces|…|results in)/i`. -/
def starterVerbs : List String :=
  ["is", "introduces", "describes", "defines", "explains", "emphasizes",
   "recommends", "provides", "demonstrates", "enables", "results in"]

/-- The `+2` action-verb list of the source
(`['introduces', …, 'results']` — note: no `'is'`, and `'results'` rather
than `'results in'`). -/
def actionVerbs : List String :=
  ["introduces", "describes", "explains", "defines", "emphasizes",
   "recommends", "provides", "demonstrates", "enables", "results"]

/-- Test of `/^(it|this|the)\s+(V1|…|Vn)/i` at the start of `trimmed`:
one of the subject words, then one or more whitespace characters, then one of
the verbs (matched literally, case-insensitively). -/
def starterTest (trimmed : String) : Bool :=
  let l := jsToLower trimmed.data
  ["it", "this", "the"].any fun subj =>
    (subj.data.isPrefixOf l) &&
      (let afterSubj := l.drop subj.data.length
       (afterSubj.takeWhile isWsChar).length ≥ 1 &&
         starterVerbs.any fun v => v.data.isPrefixOf (afterSubj.dropWhile isWsChar))

/-- The word count `trimmed.split(/\s+/).length` used by the length-band bonus. -/
def jsWordCount (s : String) : Nat :=
  (splitWsStr s).length

/-- The scoring block of `extractTakeawaySuggestions`, accumulated in source
order: `+3` starter pattern, `+2` action verb anywhere, `+1` per keyword
match, `+1` per concept-term match, `+1` per domain-term match, `+1` for the
8–28 word band. `trimmed` is the trimmed sentence. -/
def scoreSentence (keywords conceptTerms domainTerms : List String)
    (trimmed : String) : Nat :=
  let lowerSentence := jsToLowerStr trimmed
  let wordCount := jsWordCount trimmed
  let score0 : Nat := 0
  let score1 := if starterTest trimmed then score0 + 3 else score0
  let score2 :=
    if actionVerbs.any (fun verb => jsIncludesStr lowerSentence verb) then score1 + 2
    else score1
  let score3 := keywords.foldl
    (fun sc keyword =>
      if jsIncludesStr lowerSentence (jsToLowerStr keyword) then sc + 1 else sc) score2
  let score4 := conceptTerms.foldl
    (fun sc term =>
      if jsIncludesStr lowerSentence (jsToLowerStr term) then sc + 1 else sc) score3
  let score5 := domainTerms.foldl
    (fun sc term => if jsIncludesStr lowerSentence term then sc + 1 else sc) score4
  if 8 ≤ wordCount ∧ wordCount ≤ 28 then score5 + 1 else score5

/-- The additive form of the scorer that claim C2 describes, with the two verb
lists exactly as the source fixes them. -/
def scoreSpecSum (keywords conceptTerms domainTerms : List String)
    (trimmed : String) : Nat :=
  let lowerSentence := jsToLowerStr trimmed
  (if starterTest trimmed then 3 else 0) +
    (if actionVerbs.any (fun verb => jsIncludesStr lowerSentence verb) then 2 else 0) +
    keywords.countP (fun keyword => jsIncludesStr lowerSentence (jsToLowerStr keyword)) +
    conceptTerms.countP (fun term => jsIncludesStr lowerSentence (jsToLowerStr term)) +
    domainTerms.countP (jsIncludesStr lowerSentence) +
    (if 8 ≤ jsWordCount trimmed ∧ jsWordCount trimmed ≤ 28 then 1 else 0)

/-- The additive form that claim C2 literally states: a single fixed
exposition-verb list (the starter list, including `is` and `results in`) used
both for the starter bonus and for the occurs-anywhere bonus.  This is the
reading of the claim's words; it is compared against the code's
`scoreSentence`. -/
def scoreClaimSum (keywords conceptTerms domainTerms : List String)
    (trimmed : String) : Nat :=
  let lowerSentence := jsToLowerStr trimmed
  (if starterTest trimmed then 3 else 0) +
    (if starterVerbs.any (fun verb => jsIncludesStr lowerSentence verb) then 2 else 0) +
    keywords.countP (fun keyword => jsIncludesStr lowerSentence (jsToLowerStr keyword)) +
    conceptTerms.countP (fun term => jsIncludesStr lowerSentence (jsToLowerStr term)) +
    domainTerms.countP (jsIncludesStr lowerSentence) +
    (if 8 ≤ jsWordCount trimmed ∧ jsWordCount trimmed ≤ 28 then 1 else 0)

/-! ## `extractConceptTerms`
Embeds `extractConceptTerms` (identical in both versions): capitalized
phrases matched by `/\b[A-Z][a-z]+(?:\s+[A-Z][a-z]+)*\b/g` of length `> 3`,
plus the top-10 most frequent bigrams (length `> 6`, not containing `the` or
`and`) occurring at least twice, deduplicated preserving first occurrence.
The stable JS `sort` with comparator `b - a` is `List.insertionSort` with
`y.2 ≤ x.2`. -/

/-- One `[A-Z][a-z]+` component: an uppercase letter followed by a maximal
nonempty run of lowercase letters.  Returns the component and the remainder. -/
def capWordAt : List Char → Option (List Char × List Char)
  | [] => none
  | c :: rest =>
    if isUpperAZ c then
      let run := rest.takeWhile isLowerAZ
      if 1 ≤ run.length then some (c :: run, rest.drop run.length) else none
    else none

/-- `\b` seen from the left: the previous character is absent or a non-word
character (the character at the position itself is a word character at every
use site). -/
def boundaryBefore : Option Char → Bool
  | none => true
  | some p => !isWordChar p

/-- `\b` seen from the right: the next character is absent or non-word. -/
def boundaryAfter : List Char → Bool
  | [] => true
  | c :: _ => !isWordChar c

/-- Greedy extension `(?:\s+[A-Z][a-z]+)*` followed by the trailing `\b`.
`matched` is the text matched so far (ending at a component end).  If the
trailing boundary fails after the maximal extension, the regex engine drops
the final group iteration, which lands before a whitespace character where the
boundary holds; this is the `none => …` fallback. -/
def capExtend : Nat → List Char → List Char → Option (List Char × List Char)
  | 0, matched, rest =>
    if boundaryAfter rest then some (matched, rest) else none
  | fuel + 1, matched, rest =>
    let ws := rest.takeWhile isWsChar
    if 1 ≤ ws.length then
      match capWordAt (rest.drop ws.length) with
      | some (comp, rest') =>
        match capExtend fuel (matched ++ ws ++ comp) rest' with
        | some r => some r
        | none => if boundaryAfter rest then some (matched, rest) else none
      | none => if boundaryAfter rest then some (matched, rest) else none
    else if boundaryAfter rest then some (matched, rest) else none

/-- A whole capitalized-phrase match attempt at the current position. -/
def capPhraseAt (l : List Char) : Option (List Char × List Char) :=
  match capWordAt l with
  | some (comp, rest) => capExtend (rest.length + 1) comp rest
  | none => none

/-- The scan of `text.match(/\b[A-Z][a-z]+(?:\s+[A-Z][a-z]+)*\b/g)`, collecting
all matches left to right.  `prev` is the character before the current
position (for the leading `\b`). -/
def capScan : Nat → Option Char → List Char → List (List Char)
  | 0, _, _ => []
  | _, _, [] => []
  | fuel + 1, prev, c :: rest =>
    if boundaryBefore prev then
      match capPhraseAt (c :: rest) with
      | some (matched, rest') =>
        matched :: capScan fuel (matched.getLast? <|> prev) rest'
      | none => capScan fuel (some c) rest
    else capScan fuel (some c) rest

/-- Increment the count of `k` in an insertion-ordered association list
(the JS object `bigramCounts`, whose `Object.entries` order is insertion
order for these space-containing keys). -/
def bumpCount (counts : List (String × Nat)) (k : String) : List (String × Nat) :=
  if counts.any (fun e => e.1 == k) then
    counts.map (fun e => if e.1 == k then (e.1, e.2 + 1) else e)
  else counts ++ [(k, 1)]

/-- `extractConceptTerms` of the component. -/
def extractConceptTerms (text : String) : List String :=
  let capitalizedPhrases :=
    (capScan (text.data.length + 1) none text.data).map (fun l => (⟨l⟩ : String))
  let concepts := capitalizedPhrases.filter (fun p => 3 < p.length)
  let words := splitWsStr (jsToLowerStr text)
  let bigramCounts := (List.range (words.length - 1)).foldl
    (fun (counts : List (String × Nat)) i =>
      let bigram := words.getD i "" ++ " " ++ words.getD (i + 1) ""
      if 6 < bigram.length ∧ ¬ (jsIncludesStr bigram "the" = true) ∧
          ¬ (jsIncludesStr bigram "and" = true) then
        bumpCount counts bigram
      else counts) []
  let frequentBigrams :=
    (((bigramCounts.filter (fun e => 2 ≤ e.2)).insertionSort
        (fun x y => y.2 ≤ x.2)).take 10).map (fun e => e.1)
  jsDedup (concepts ++ frequentBigrams)

/-! ## `filterQuestionTakeaways`
Embeds `filterQuestionTakeaways` of the current
`src/components/CornellNoteGenerator.tsx`: a sentence is identified as a
question when it ends with `?` or starts with one of a fixed list of
interrogative/auxiliary words; every question is rejected (the transformation
branches all return `isValid: false` without ever setting `transformed`). -/

/-- The fixed interrogative/auxiliary word list of
`/^(what|how|why|when|where|who|which|can|could|would|should|will|do|does|did|is|are|was|were)\s/i`. -/
def questionStartWords : List String :=
  ["what", "how", "why", "when", "where", "who", "which", "can", "could",
   "would", "should", "will", "do", "does", "did", "is", "are", "was", "were"]

/-- Test of the start-pattern above: one of the words, case-insensitively,
followed by a whitespace character. -/
def startsWithQuestionWord (trimmed : String) : Bool :=
  let l := jsToLower trimmed.data
  questionStartWords.any fun w =>
    w.data.isPrefixOf l && (l.drop w.data.length).head?.any isWsChar

/-- The question test of `filterQuestionTakeaways`: `/\?$/` or the
interrogative start pattern. -/
def isQuestionSentence (trimmed : String) : Bool :=
  jsEndsWithChar trimmed.data '?' || startsWithQuestionWord trimmed

/-- Test of `/^what\s+is\s+(.+?)\?$/i`. -/
def whatIsQuestionTest (trimmed : String) : Bool :=
  let l := jsToLower trimmed.data
  (["what"] : List String).any fun w =>
    w.data.isPrefixOf l &&
      (let r1 := l.drop w.data.length
       1 ≤ (r1.takeWhile isWsChar).length &&
         (let r2 := r1.dropWhile isWsChar
          ("is" : String).data.isPrefixOf r2 &&
            (let r3 := r2.drop 2
             1 ≤ (r3.takeWhile isWsChar).length &&
               (let r4 := r3.dropWhile isWsChar
                2 ≤ r4.length && r4.getLast? = some '?'))))

/-- Test of `/^(how|why|when|where)\s/i`. -/
def howWhyWhenWhereTest (trimmed : String) : Bool :=
  let l := jsToLower trimmed.data
  (["how", "why", "when", "where"] : List String).any fun w =>
    w.data.isPrefixOf l && (l.drop w.data.length).head?.any isWsChar

/-- The result record of `filterQuestionTakeaways`. -/
structure FilterResult where
  isValid : Bool
  transformed : Option String
deriving DecidableEq, Repr

/-- `filterQuestionTakeaways`.  In the source every question branch returns
`{ isValid: false }` (the "What is X?" branch always has a non-empty capture
and returns false; the how/why/when/where branch returns false; the final
fallback returns false), and `transformed` is never set. -/
def filterQuestionTakeaways (sentence : String) : FilterResult :=
  let trimmed := jsTrimStr sentence
  if ¬ (isQuestionSentence trimmed = true) then ⟨true, none⟩
  else if whatIsQuestionTest trimmed then ⟨false, none⟩
  else if howWhyWhenWhereTest trimmed then ⟨false, none⟩
  else ⟨false, none⟩

/-! ## `extractTakeawaySuggestions` — both versions -/

/-- The `sentences.forEach` loop of the earlier snapshot's
`extractTakeawaySuggestions` (no question filtering): skip used or
out-of-band sentences, score, push when the score is positive. -/
def collectGoV1 (kw ct dt : List String) (used : List String)
    (acc : List TakeawaySuggestion) : List String → List TakeawaySuggestion
  | [] => acc
  | sentence :: rest =>
    let trimmed := jsTrimStr sentence
    if used.contains trimmed ∨ trimmed.length < 20 ∨ 200 < trimmed.length then
      collectGoV1 kw ct dt used acc rest
    else
      let score := scoreSentence kw ct dt trimmed
      if 0 < score then
        collectGoV1 kw ct dt (used ++ [trimmed])
          (acc ++ [⟨trimmed, score, false⟩]) rest
      else collectGoV1 kw ct dt used acc rest

/-- The `sentences.forEach` loop of the current component's
`extractTakeawaySuggestions`: as in the earlier snapshot, but a positively
scored sentence is pushed only when `filterQuestionTakeaways` accepts it
(`finalSentence` is `filterResult.transformed || trimmed`). -/
def collectGoV2 (kw ct dt : List String) (used : List String)
    (acc : List TakeawaySuggestion) : List String → List TakeawaySuggestion
  | [] => acc
  | sentence :: rest =>
    let trimmed := jsTrimStr sentence
    if used.contains trimmed ∨ trimmed.length < 20 ∨ 200 < trimmed.length then
      collectGoV2 kw ct dt used acc rest
    else
      let score := scoreSentence kw ct dt trimmed
      if 0 < score then
        let filterResult := filterQuestionTakeaways trimmed
        if filterResult.isValid then
          let finalSentence := filterResult.transformed.getD trimmed
          collectGoV2 kw ct dt (used ++ [finalSentence])
            (acc ++ [⟨finalSentence, score, false⟩]) rest
        else collectGoV2 kw ct dt used acc rest
      else collectGoV2 kw ct dt used acc rest

/-- The domain-term list
`domainVocabulary.toLowerCase().split(',').map(t => t.trim()).filter(Boolean)`. -/
def domainTermsOf (domainVocabulary : String) : List String :=
  (((splitOnChar ',' (jsToLower domainVocabulary.data)).map
      (fun l => jsTrimStr ⟨l⟩)).filter (fun t => ¬ (t = ""))) 

/-- `extractTakeawaySuggestions` of the earlier snapshot (`V1`): split into
sentences, score, softly deduplicate, sort by score descending (JS stable
sort) and keep the top 12. -/
def extractTakeawaySuggestionsV1 (domainVocabulary text : String)
    (keywords : List String) : List TakeawaySuggestion :=
  let sentences := (splitSentences text).filter (fun s => 15 < (jsTrimStr s).length)
  let domainTerms := domainTermsOf domainVocabulary
  let conceptTerms := extractConceptTerms text
  let suggestions := collectGoV1 keywords conceptTerms domainTerms [] [] sentences
  (((removeDuplicates suggestions).insertionSort
      (fun a b => b.score ≤ a.score)).take 12)

/-- `extractTakeawaySuggestions` of the current component (with the question
filter). -/
def extractTakeawaySuggestions (domainVocabulary text : String)
    (keywords : List String) : List TakeawaySuggestion :=
  let sentences := (splitSentences text).filter (fun s => 15 < (jsTrimStr s).length)
  let domainTerms := domainTermsOf domainVocabulary
  let conceptTerms := extractConceptTerms text
  let suggestions := collectGoV2 keywords conceptTerms domainTerms [] [] sentences
  (((removeDuplicates suggestions).insertionSort
      (fun a b => b.score ≤ a.score)).take 12)

/-! ## A generic replacement scanner for the embedded `String.replace(regex, …)` passes

`m prev s` attempts a match at the current position: `prev` is the character
just before the position (for `\b`/`^` context), `s` the remaining input.  On
a match it returns `(replacement, matched, remaining)` with `matched` nonempty
and `remaining` the input after the match; matching always happens on the
original string, exactly as JS `replace` with the `g` flag finds its
non-overlapping matches left to right.  The fuel argument starts at
`length + 1`, which is enough because every step consumes at least one
character. -/
def scanReplace (m : Option Char → List Char → Option (List Char × List Char × List Char)) :
    Nat → Option Char → List Char → List Char
  | 0, _, s => s
  | _ + 1, _, [] => []
  | fuel + 1, prev, c :: rest =>
    match m prev (c :: rest) with
    | some (repl, matched, remaining) =>
      repl ++ scanReplace m fuel (matched.getLast? <|> prev) remaining
    | none => c :: scanReplace m fuel (some c) rest

/-- ASCII letters, the JS regex class `[a-zA-Z]`. -/
def isLetterAZ (c : Char) : Bool :=
  isLowerAZ c || isUpperAZ c

/-- Whitespace collapsing `replace(/\s+/g, ' ')`: every maximal whitespace run
becomes a single space.  `prevWs` records whether the previous character was
part of a run. -/
def collapseWsGo : Bool → List Char → List Char
  | _, [] => []
  | prevWs, c :: rest =>
    if isWsChar c then
      if prevWs then collapseWsGo true rest
      else ' ' :: collapseWsGo true rest
    else c :: collapseWsGo false rest

/-- `replace(/\s+/g, ' ').trim()`, the final normalization pass shared by
`cleanupText` and `sanitize`. -/
def normalizeWs (l : List Char) : List Char :=
  jsTrim (collapseWsGo false l)

/-! ## `cleanupText` of the earlier snapshot
```js
cleaned = cleaned.replace(/\b([a-zA-Z])\s+([a-zA-Z])\b/g, '$1$2');
cleaned = cleaned.replace(/\b([a-zA-Z])\s+([a-zA-Z]{2,})\b/g, '$1$2');
cleaned = cleaned.replace(/\b([a-zA-Z]{2,})\s+([a-zA-Z])\s+([a-zA-Z]{2,})\b/g, '$1 $2$3');
cleaned = cleaned.replace(/\s+/g, ' ');
cleaned = cleaned.trim();
```
-/

/-- Matcher of `/\b([a-zA-Z])\s+([a-zA-Z])\b/`. -/
def cleanupRule1At (prev : Option Char) : List Char → Option (List Char × List Char × List Char)
  | [] => none
  | c1 :: rest1 =>
    if boundaryBefore prev && isLetterAZ c1 then
      let ws := rest1.takeWhile isWsChar
      if 1 ≤ ws.length then
        match rest1.drop ws.length with
        | c2 :: rest2 =>
          if isLetterAZ c2 && boundaryAfter rest2 then
            some ([c1, c2], c1 :: (ws ++ [c2]), rest2)
          else none
        | [] => none
      else none
    else none

/-- Matcher of `/\b([a-zA-Z])\s+([a-zA-Z]{2,})\b/` (the second group is a
maximal letter run; shrinking it cannot restore the trailing `\b`, so maximal
munch is exact). -/
def cleanupRule2At (prev : Option Char) : List Char → Option (List Char × List Char × List Char)
  | [] => none
  | c1 :: rest1 =>
    if boundaryBefore prev && isLetterAZ c1 then
      let ws := rest1.takeWhile isWsChar
      if 1 ≤ ws.length then
        let afterWs := rest1.drop ws.length
        let run := afterWs.takeWhile isLetterAZ
        if 2 ≤ run.length && boundaryAfter (afterWs.drop run.length) then
          some (c1 :: run, c1 :: (ws ++ run), afterWs.drop run.length)
        else none
      else none
    else none

/-- Matcher of `/\b([a-zA-Z]{2,})\s+([a-zA-Z])\s+([a-zA-Z]{2,})\b/`. -/
def cleanupRule3At (prev : Option Char) (l : List Char) :
    Option (List Char × List Char × List Char) :=
  if boundaryBefore prev then
    let run1 := l.takeWhile isLetterAZ
    if 2 ≤ run1.length then
      let r1 := l.drop run1.length
      let ws1 := r1.takeWhile isWsChar
      if 1 ≤ ws1.length then
        match r1.drop ws1.length with
        | c2 :: r2 =>
          if isLetterAZ c2 then
            let ws2 := r2.takeWhile isWsChar
            if 1 ≤ ws2.length then
              let afterWs2 := r2.drop ws2.length
              let run3 := afterWs2.takeWhile isLetterAZ
              if 2 ≤ run3.length && boundaryAfter (afterWs2.drop run3.length) then
                some (run1 ++ ' ' :: c2 :: run3,
                  run1 ++ ws1 ++ c2 :: (ws2 ++ run3),
                  afterWs2.drop run3.length)
              else none
            else none
          else none
        | [] => none
      else none
    else none
  else none

/-- `cleanupText` of the earlier snapshot. -/
def cleanupTextV1 (text : String) : String :=
  let s1 := scanReplace cleanupRule1At (text.data.length + 1) none text.data
  let s2 := scanReplace cleanupRule2At (s1.length + 1) none s1
  let s3 := scanReplace cleanupRule3At (s2.length + 1) none s2
  ⟨normalizeWs s3⟩

/-! ## `generateQuestions` of the earlier snapshot (with `getUniqueAnswer`) -/

/-- A Q&A item (`{ question, answer, evidence?, needsReview? }`). -/
structure QAItem where
  question : String
  answer : String
  evidence : Option String
  needsReview : Option Bool
deriving DecidableEq, Repr

/-- `trimmed.endsWith('.') || trimmed.endsWith('!') || trimmed.endsWith('?')`. -/
def endsTermStr (s : String) : Bool :=
  jsEndsWithChar s.data '.' || jsEndsWithChar s.data '!' || jsEndsWithChar s.data '?'

/-- `getUniqueAnswer` of the earlier snapshot: in strict mode the trimmed
sentence, completed with a final `.` unless it already ends in terminal
punctuation; otherwise truncation at 150 characters with `'...'`. -/
def getUniqueAnswer (isStrict : Bool) (sentence : String) : String :=
  let trimmed := jsTrimStr sentence
  if isStrict then
    if endsTermStr trimmed then trimmed else trimmed ++ "."
  else
    if 150 < trimmed.length then (⟨trimmed.data.take 150⟩ : String) ++ "..." else trimmed

/-- `getEvidence`: the first 12 space-separated words of the trimmed sentence,
with `'...'` appended when there are more. -/
def getEvidence (sentence : String) : String :=
  let words := splitOnChar ' ' (jsTrim sentence.data)
  (⟨jsJoin " ".data (words.take 12)⟩ : String) ++
    (if 12 < words.length then "..." else "")

/-- Builds one question record the way every push site of the snapshot's
`generateQuestions` does: `getUniqueAnswer` for the answer and, in strict
mode, `getEvidence` with `needsReview` set when the evidence trims to
nothing. -/
def mkQA (isStrict : Bool) (qtext sentence : String) : QAItem :=
  let answer := getUniqueAnswer isStrict sentence
  if isStrict then
    let ev := getEvidence sentence
    { question := qtext, answer := answer, evidence := some ev,
      needsReview := if jsTrimStr ev = "" then some true else none }
  else
    { question := qtext, answer := answer, evidence := none, needsReview := none }

/-- The `sentences.find(…)` of the keyword-triggered templates Q2–Q5. -/
def findTemplateSentence (isStrict : Bool) (used : List String) (keys : List String)
    (sentences : List String) : Option String :=
  sentences.find? fun s =>
    !used.contains (getUniqueAnswer isStrict s) &&
      keys.any (fun k => jsIncludesStr (jsToLowerStr s) k)

/-- One keyword-triggered template step of `generateQuestions` (push when a
sentence is found and fewer than five questions exist). -/
def qTemplateStep (isStrict : Bool) (qtext : String) (keys : List String)
    (sentences : List String) (st : List QAItem × List String) :
    List QAItem × List String :=
  match findTemplateSentence isStrict st.2 keys sentences with
  | some s =>
    if st.1.length < 5 then
      (st.1 ++ [mkQA isStrict qtext s], st.2 ++ [getUniqueAnswer isStrict s])
    else st
  | none => st

/-- The filler question text
`` `What does the excerpt state about ${sentence.trim().split(' ').slice(0, 4).join(' ').toLowerCase()}?` ``. -/
def fillerQuestionText (sentence : String) : String :=
  "What does the excerpt state about " ++
    jsToLowerStr (⟨jsJoin " ".data ((splitOnChar ' ' (jsTrim sentence.data)).take 4)⟩ : String) ++
    "?"

/-- The `while` filler loop of `generateQuestions`: the index advances by the
fixed `stepN ≥ 1`; the fuel starts at `remaining.length + 1`, which bounds
the number of iterations. -/
def fillGo (isStrict : Bool) (remaining : List String) (stepN : Nat) :
    Nat → Nat → List QAItem × List String → List QAItem × List String
  | 0, _, st => st
  | fuel + 1, index, st =>
    if st.1.length < 5 ∧ index < remaining.length then
      let sentence := remaining.getD index ""
      let answer := getUniqueAnswer isStrict sentence
      let st' :=
        if !st.2.contains answer then
          (st.1 ++ [mkQA isStrict (fillerQuestionText sentence) sentence], st.2 ++ [answer])
        else st
      fillGo isStrict remaining stepN fuel (index + stepN) st'
    else st

/-- The unconditional first question (Q1) of `generateQuestions`: the first
substantial sentence, when one exists. -/
def q1Step (isStrict : Bool) (sentences : List String) : List QAItem × List String :=
  match sentences with
  | [] => ([], [])
  | s0 :: _ =>
    ([mkQA isStrict "What is the primary subject discussed in this excerpt?" s0],
      [getUniqueAnswer isStrict s0])

/-- The trailing filler block of `generateQuestions` (the `while` loop over
evenly spaced remaining sentences). -/
def fillerStep (isStrict : Bool) (sentences : List String)
    (st : List QAItem × List String) : List QAItem × List String :=
  if st.1.length < 5 then
    let remaining := sentences.filter fun s =>
      !st.2.contains (getUniqueAnswer isStrict s) && 30 < (jsTrimStr s).length
    let stepN := max 1 (remaining.length / (5 - st.1.length + 1))
    fillGo isStrict remaining stepN (remaining.length + 1) 0 st
  else st

/-- `generateQuestions` of the earlier snapshot. -/
def generateQuestionsV1 (text : String) (isStrict : Bool) : List QAItem :=
  let sentences := (splitSentences text).filter (fun s => 20 < (jsTrimStr s).length)
  ((fillerStep isStrict sentences
    (qTemplateStep isStrict "What requirements or recommendations are stated?"
      ["should", "must", "require", "recommend"] sentences
      (qTemplateStep isStrict "What benefits or value are highlighted?"
        ["benefit", "value", "advantage", "outcome"] sentences
        (qTemplateStep isStrict "What purpose or objective is mentioned?"
          ["purpose", "objective", "goal", "aim"] sentences
          (qTemplateStep isStrict "What method or approach is described?"
            ["method", "approach", "technique", "process"] sentences
            (q1Step isStrict sentences)))))).1).take 5

/-! ## `generateTakeaways` of the earlier snapshot -/

/-- The key-concept words of the first takeaway pass. -/
def takeawayKeyWords : List String :=
  ["important", "key", "must", "should", "essential", "critical"]

/-- The sentence list `text.split(/[.!?]+/).filter(s => s.trim().length > 15)`. -/
def takeawaySentences (text : String) : List String :=
  (splitSentences text).filter (fun s => 15 < (jsTrimStr s).length)

/-- First pass: trimmed sentences of length in `(30, 120)` containing one of
the key-concept words. -/
def takeawayPhase1 (text : String) : List String :=
  (takeawaySentences text).foldl
    (fun acc s =>
      let trimmed := jsTrimStr s
      if 30 < trimmed.length ∧ trimmed.length < 120 ∧
          takeawayKeyWords.any (fun k => jsIncludesStr (jsToLowerStr trimmed) k) then
        acc ++ [trimmed]
      else acc) []

/-- The fallback pool of the second pass: sentences with trimmed length in
`(40, 100)` whose trimmed text is not already a takeaway. -/
def takeawayPhase2Pool (text : String) : List String :=
  ((takeawaySentences text).filter
      (fun s => 40 < (jsTrimStr s).length ∧ (jsTrimStr s).length < 100)).filter
    (fun s => ¬ ((takeawayPhase1 text).contains (jsTrimStr s) = true))

/-- `generateTakeaways` of the earlier snapshot. -/
def generateTakeawaysV1 (strictMode : Bool) (text : String) : List String :=
  let takeaways := takeawayPhase1 text
  let targetCount := if strictMode then max 5 (min 7 (takeaways.length + 5)) else 7
  let takeaways2 :=
    if takeaways.length < 5 then
      takeaways ++
        ((takeawayPhase2Pool text).take (targetCount - takeaways.length)).map jsTrimStr
    else takeaways
  takeaways2.take 7

/-! ## `generateSummary` of the earlier snapshot -/

/-- `generateSummary` of the earlier snapshot.  `Math.floor(length * 0.25)`
and friends are exact in binary floating point, hence `length / 4`,
`length / 2` and `3 * length / 4`. -/
def generateSummaryV1 (strictMode : Bool) (text : String) : String :=
  let sentences := (splitSentences text).filter (fun s => 20 < (jsTrimStr s).length)
  let summaryParts :=
    if 5 ≤ sentences.length then
      [jsTrimStr (sentences.getD 0 ""),
        jsTrimStr (sentences.getD (sentences.length / 4) ""),
        jsTrimStr (sentences.getD (sentences.length / 2) ""),
        jsTrimStr (sentences.getD (3 * sentences.length / 4) "")] ++
      (if 1 < sentences.length then [jsTrimStr (sentences.getD (sentences.length - 1) "")]
        else [])
    else sentences.map jsTrimStr
  let filteredParts := summaryParts.filter (fun p => ¬ (p = ""))
  if strictMode then
    let targetCount := max 4 (min 8 filteredParts.length)
    (⟨jsJoin ". ".data ((filteredParts.take targetCount).map String.data)⟩ : String) ++ "."
  else
    (⟨jsJoin ". ".data ((filteredParts.take 6).map String.data)⟩ : String) ++ "."

/-! ## `extractKeywords` of the earlier snapshot -/

/-- `extractKeywords` of the earlier snapshot.  The unused local `phrases` of
the source is omitted; `Object.entries` order is insertion order and the JS
sort is stable, modelled by the stable `List.insertionSort` on the
insertion-ordered association list. -/
def extractKeywordsV1 (strictMode : Bool) (text : String) : List String :=
  let words := splitWsStr (jsToLowerStr text)
  let termCounts := (List.range (words.length - 1)).foldl
    (fun (counts : List (String × Nat)) i =>
      let twoWord := (⟨jsJoin " ".data (((words.drop i).take 2).map String.data)⟩ : String)
      let threeWord := (⟨jsJoin " ".data (((words.drop i).take 3).map String.data)⟩ : String)
      let counts1 :=
        if 6 < twoWord.length ∧ ¬ (jsIncludesStr twoWord "the" = true) ∧
            ¬ (jsIncludesStr twoWord "and" = true) then
          bumpCount counts twoWord
        else counts
      if 10 < threeWord.length ∧ ¬ (jsIncludesStr threeWord "the" = true) ∧
          ¬ (jsIncludesStr threeWord "and" = true) then
        bumpCount counts1 threeWord
      else counts1) []
  let sortedTerms :=
    (((termCounts.insertionSort (fun x y => y.2 ≤ x.2)).take
        (if strictMode then 7 else 6)).map (fun e => e.1))
  if strictMode then
    let targetCount := max 5 (min 7 sortedTerms.length)
    if sortedTerms.length < 5 then
      let singleWords := words.filter fun w =>
        6 < w.length ∧ ¬ ((["the", "and", "that", "this", "with"] : List String).contains w = true)
      let uniqueWords := (jsDedup singleWords).take (5 - sortedTerms.length)
      (sortedTerms ++ uniqueWords).take targetCount
    else sortedTerms.take targetCount
  else
    if 5 ≤ sortedTerms.length then sortedTerms
    else sortedTerms ++ (words.filter (fun w => 6 < w.length)).take (6 - sortedTerms.length)

/-! ## The note aggregate and the validators -/

/-- The note aggregate (`interface CornellNote`).  The optional JS fields
`isValid`/`validationErrors` are `Option`-valued (`none` = not yet set). -/
structure CornellNote where
  title : String
  date : String
  module : String
  keywords : List String
  questions : List QAItem
  takeaways : List String
  summary : String
  isValid : Option Bool
  validationErrors : Option (List String)
deriving DecidableEq, Repr

/-- `!qa.evidence || qa.evidence.trim().length === 0`. -/
def evidenceMissing (qa : QAItem) : Bool :=
  match qa.evidence with
  | none => true
  | some e => (jsTrim e.data).length = 0

/-- `qa.answer.match(/[.!?]$/)` as a boolean: the answer's final character is
terminal punctuation. -/
def answerEndsPunct (qa : QAItem) : Bool :=
  (qa.answer.data.getLast?.map isTermChar).getD false

/-- `qa.answer.includes('...')`. -/
def answerHasEllipsis (qa : QAItem) : Bool :=
  jsIncludesStr qa.answer "..."

/-- The per-question error messages shared by both validators (ellipses and
final punctuation), for question index `i` (0-based). -/
def qaSentenceErrors (i : Nat) (qa : QAItem) : List String :=
  (if answerHasEllipsis qa then
    ["Q" ++ toString (i + 1) ++ " answer contains ellipses - must be full sentences"]
  else []) ++
  (if ¬ (answerEndsPunct qa = true) then
    ["Q" ++ toString (i + 1) ++ " answer must end with punctuation"]
  else [])

/-- The error list shared by both versions of `validateStrictMode` apart from
the per-question block, split before and after that block.  `perQuestion i qa`
is the version-specific per-question error list. -/
def validateCore (strictMode : Bool) (selectedTakeaways : List String)
    (note : CornellNote) (perQuestion : Nat → QAItem → List String) : List String :=
  let errors1 :=
    if note.keywords.length < 5 ∨ 7 < note.keywords.length then
      ["Keywords must be 5-7 items (found " ++ toString note.keywords.length ++ ")"]
    else []
  let errors2 := errors1 ++
    (if note.questions.length < 5 then
      ["Q&A must have ≥5 items (found " ++ toString note.questions.length ++ ")"]
    else [])
  let takeawayCount :=
    if strictMode ∧ 0 < selectedTakeaways.length then selectedTakeaways.length
    else note.takeaways.length
  let errors3 := errors2 ++
    (if takeawayCount < 5 ∨ 7 < takeawayCount then
      ["Takeaways must be 5-7 items (found " ++ toString takeawayCount ++ ")"]
    else [])
  let summaryBlocks := (splitSentences note.summary).filter (fun s => 10 < (jsTrimStr s).length)
  let errors4 := errors3 ++
    (if summaryBlocks.length < 4 ∨ 8 < summaryBlocks.length then
      ["Summary must be 4-8 sentences (found " ++ toString summaryBlocks.length ++ ")"]
    else [])
  let errors5 := errors4 ++
    (note.questions.enum.foldl (fun errs iq => errs ++ perQuestion iq.1 iq.2) [])
  let errors6 := errors5 ++
    (if ¬ ((jsDedup note.keywords).length = note.keywords.length) then
      ["All keywords must be unique"]
    else [])
  errors6 ++
    (if ¬ ((jsDedup (note.questions.map QAItem.question)).length = note.questions.length) then
      ["All questions must be unique"]
    else [])

/-- `validateStrictMode` of the earlier snapshot: per question, the missing
evidence check precedes the ellipses/punctuation checks. -/
def validateStrictModeV1 (strictMode : Bool) (selectedTakeaways : List String)
    (note : CornellNote) : Bool × List String :=
  let errors := validateCore strictMode selectedTakeaways note fun i qa =>
    (if evidenceMissing qa then
      ["Q" ++ toString (i + 1) ++ " missing evidence quote"]
    else []) ++ qaSentenceErrors i qa
  (errors.length = 0, errors)

/-- `validateStrictMode` of the current component: no evidence requirement,
only the ellipses/punctuation checks per question. -/
def validateStrictMode (strictMode : Bool) (selectedTakeaways : List String)
    (note : CornellNote) : Bool × List String :=
  let errors := validateCore strictMode selectedTakeaways note qaSentenceErrors
  (errors.length = 0, errors)

/-- `validateEvidence` of the earlier snapshot: in strict mode it stores the
validation verdict on the note and, when invalid, flags every question without
evidence with `needsReview`; outside strict mode it only flags the questions
without evidence. -/
def validateEvidenceV1 (strictMode : Bool) (selectedTakeaways : List String)
    (note : CornellNote) : CornellNote :=
  if strictMode then
    let validation := validateStrictModeV1 strictMode selectedTakeaways note
    let note' := { note with
      isValid := some validation.1, validationErrors := some validation.2 }
    if ¬ (validation.1 = true) then
      { note' with questions := note'.questions.map fun item =>
          if evidenceMissing item then { item with needsReview := some true } else item }
    else note'
  else
    { note with questions := note.questions.map fun item =>
        if evidenceMissing item then { item with needsReview := some true } else item }

/-- `validateEvidence` of the current component: in strict mode it stores the
validation verdict on the note (evidence is no longer required, no per-question
mutation); outside strict mode it does nothing. -/
def validateEvidence (strictMode : Bool) (selectedTakeaways : List String)
    (note : CornellNote) : CornellNote :=
  if strictMode then
    let validation := validateStrictMode strictMode selectedTakeaways note
    { note with isValid := some validation.1, validationErrors := some validation.2 }
  else note

/-! ## `generateCornellNote` of the earlier snapshot (the 300-word gate) -/

/-- The caller-visible outcome of a generation request. -/
inductive GenSignal where
  | noExcerpt
  | tooShort
  | success
deriving DecidableEq, Repr

/-- One generation request of the earlier snapshot (`generateCornellNote`):
empty input and input under 300 words (counted on the cleaned excerpt, as the
source does) leave the current note untouched and report a signal; otherwise a
fresh note is assembled.  `prev` is the current note state, `today` the
`new Date().toISOString().split('T')[0]` value, and the returned suggestion
list is the strict-mode takeaway-suggestion tray. -/
def generateStep (prev : Option CornellNote) (strictMode : Bool)
    (domainVocabulary : String) (selectedTakeaways : List String) (today : String)
    (excerpt : String) : Option CornellNote × GenSignal × List TakeawaySuggestion :=
  if jsTrimStr excerpt = "" then (prev, GenSignal.noExcerpt, [])
  else
    let cleanedExcerpt := cleanupTextV1 excerpt
    let wordCount := (splitWsStr (jsTrimStr cleanedExcerpt)).length
    if wordCount < 300 then (prev, GenSignal.tooShort, [])
    else
      let keywords := extractKeywordsV1 strictMode cleanedExcerpt
      let suggestions :=
        if strictMode then extractTakeawaySuggestionsV1 domainVocabulary cleanedExcerpt keywords
        else []
      let note : CornellNote := {
        title := "Agile Extension Study Notes",
        date := today,
        module := "Agile Extension v2",
        keywords := keywords,
        questions := generateQuestionsV1 cleanedExcerpt strictMode,
        takeaways := if strictMode then [] else generateTakeawaysV1 strictMode cleanedExcerpt,
        summary := generateSummaryV1 strictMode cleanedExcerpt,
        isValid := none,
        validationErrors := none }
      let note' := if strictMode then validateEvidenceV1 strictMode selectedTakeaways note else note
      (some note', GenSignal.success, suggestions)

/-! ## `sanitize` of `src/lib/sanitize`

Each `replace` pass of the source becomes one matcher fed to `scanReplace`.
The JS specifics that matter here: `\s` may match a newline (so `\s*`/`\s+`
can cross line boundaries even in patterns anchored with `^…$` under the `m`
flag), `.` never matches a line terminator, multiline `^`/`$` hold at
line-terminator boundaries, and the greedy `\s*` before an `$` backtracks to
the longest prefix of the whitespace run that ends at a line boundary. -/

/-- The class `[.\s]`. -/
def isDotWs (c : Char) : Bool :=
  c = '.' || isWsChar c

/-- The class `[:\s]`. -/
def isColonWs (c : Char) : Bool :=
  c = ':' || isWsChar c

/-- Multiline `^`: at the start of the input or after a line terminator. -/
def atLineStart : Option Char → Bool
  | none => true
  | some c => c = '\n' || c = '\r'

/-- Multiline `$`: at the end of the input or before a line terminator. -/
def atLineEnd : List Char → Bool
  | [] => true
  | c :: _ => c = '\n' || c = '\r'

/-- A line terminator, the characters `.` does not match. -/
def isLineTerm (c : Char) : Bool :=
  c = '\n' || c = '\r'

/-- Case-insensitive literal match: returns the consumed characters (in their
original case) and the remainder.  `lit` is given lowercased. -/
def matchCILit (lit : List Char) (l : List Char) : Option (List Char × List Char) :=
  if lit.length ≤ l.length ∧ jsToLower (l.take lit.length) = lit then
    some (l.take lit.length, l.drop lit.length)
  else none

/-- Matcher of `/^(section_key|title|chapter|level|word_count|source):\s*.*$/m`
(case-sensitive); the whole match is dropped.  The greedy `\s*` may cross line
terminators and `.*` then runs to the end of the line reached. -/
def metadataAt (prev : Option Char) (l : List Char) :
    Option (List Char × List Char × List Char) :=
  if atLineStart prev then
    (["section_key", "title", "chapter", "level", "word_count", "source"] :
        List String).findSome? fun key =>
      let pre := key.data ++ [':']
      if pre.isPrefixOf l then
        let afterColon := l.drop pre.length
        let ws := afterColon.takeWhile isWsChar
        let afterWs := afterColon.drop ws.length
        let lineRest := afterWs.takeWhile (fun c => !isLineTerm c)
        some ([], pre ++ ws ++ lineRest, afterWs.drop lineRest.length)
      else none
  else none

/-- Matcher of
`/Complimentary Member Copy[.\s]*Not for Distribution or Resale[.\s]*/i`. -/
def watermark1At (_prev : Option Char) (l : List Char) :
    Option (List Char × List Char × List Char) :=
  match matchCILit "complimentary member copy".data l with
  | some (c1, r1) =>
    let dots1 := r1.takeWhile isDotWs
    match matchCILit "not for distribution or resale".data (r1.drop dots1.length) with
    | some (c2, r2) =>
      let dots2 := r2.takeWhile isDotWs
      some ([], c1 ++ dots1 ++ c2 ++ dots2, r2.drop dots2.length)
    | none => none
  | none => none

/-- Matcher of `/Not for Distribution or Resale[.\s]*/i`. -/
def watermark2At (_prev : Option Char) (l : List Char) :
    Option (List Char × List Char × List Char) :=
  match matchCILit "not for distribution or resale".data l with
  | some (c1, r1) =>
    let dots := r1.takeWhile isDotWs
    some ([], c1 ++ dots, r1.drop dots.length)
  | none => none

/-- Matcher of `/\bsee\s+\d+\s*\./i`. -/
def seeDotAt (prev : Option Char) (l : List Char) :
    Option (List Char × List Char × List Char) :=
  if boundaryBefore prev then
    match matchCILit "see".data l with
    | some (c1, r1) =>
      let ws1 := r1.takeWhile isWsChar
      if 1 ≤ ws1.length then
        let r2 := r1.drop ws1.length
        let digits := r2.takeWhile isDigitChar
        if 1 ≤ digits.length then
          let r3 := r2.drop digits.length
          let ws2 := r3.takeWhile isWsChar
          match r3.drop ws2.length with
          | '.' :: r4 => some ([], c1 ++ ws1 ++ digits ++ ws2 ++ ['.'], r4)
          | _ => none
        else none
      else none
    | none => none
  else none

/-- The greedy `\s*$` (multiline): the longest prefix of the whitespace run
after which the input is at a line boundary. -/
def greedyWsToEol (l : List Char) : Option Nat :=
  (List.range ((l.takeWhile isWsChar).length + 1)).reverse.find?
    (fun k => atLineEnd (l.drop k))

/-- Matcher of `/\bsee\s+\d+\s*$/m` (case-sensitive). -/
def seeEolAt (prev : Option Char) (l : List Char) :
    Option (List Char × List Char × List Char) :=
  if boundaryBefore prev && ("see" : String).data.isPrefixOf l then
    let r1 := l.drop 3
    let ws1 := r1.takeWhile isWsChar
    if 1 ≤ ws1.length then
      let r2 := r1.drop ws1.length
      let digits := r2.takeWhile isDigitChar
      if 1 ≤ digits.length then
        let r3 := r2.drop digits.length
        match greedyWsToEol r3 with
        | some k => some ([], ("see" : String).data ++ ws1 ++ digits ++ r3.take k, r3.drop k)
        | none => none
      else none
    else none
  else none

/-- Matcher of `/\bFigure\s+\d+[:\s]*/i`. -/
def figureAt (prev : Option Char) (l : List Char) :
    Option (List Char × List Char × List Char) :=
  if boundaryBefore prev then
    match matchCILit "figure".data l with
    | some (c1, r1) =>
      let ws1 := r1.takeWhile isWsChar
      if 1 ≤ ws1.length then
        let r2 := r1.drop ws1.length
        let digits := r2.takeWhile isDigitChar
        if 1 ≤ digits.length then
          let r3 := r2.drop digits.length
          let tailRun := r3.takeWhile isColonWs
          some ([], c1 ++ ws1 ++ digits ++ tailRun, r3.drop tailRun.length)
        else none
      else none
    | none => none
  else none

/-- Matcher of `/^\d+[:\s]+/m`. -/
def lineNumAt (prev : Option Char) (l : List Char) :
    Option (List Char × List Char × List Char) :=
  if atLineStart prev then
    let digits := l.takeWhile isDigitChar
    if 1 ≤ digits.length then
      let r1 := l.drop digits.length
      let run := r1.takeWhile isColonWs
      if 1 ≤ run.length then
        some ([], digits ++ run, r1.drop run.length)
      else none
    else none
  else none

/-- Matcher of `/^###\s*\d+/m`. -/
def hashNumAt (prev : Option Char) (l : List Char) :
    Option (List Char × List Char × List Char) :=
  if atLineStart prev && ("###" : String).data.isPrefixOf l then
    let r1 := l.drop 3
    let ws := r1.takeWhile isWsChar
    let r2 := r1.drop ws.length
    let digits := r2.takeWhile isDigitChar
    if 1 ≤ digits.length then
      some ([], ("###" : String).data ++ ws ++ digits, r2.drop digits.length)
    else none
  else none

/-- Matcher of `/^Evidence:\s*.*$/m` (case-sensitive). -/
def evidenceAt (prev : Option Char) (l : List Char) :
    Option (List Char × List Char × List Char) :=
  if atLineStart prev && ("Evidence:" : String).data.isPrefixOf l then
    let r1 := l.drop 9
    let ws := r1.takeWhile isWsChar
    let r2 := r1.drop ws.length
    let lineRest := r2.takeWhile (fun c => !isLineTerm c)
    some ([], ("Evidence:" : String).data ++ ws ++ lineRest, r2.drop lineRest.length)
  else none

/-- Matcher of `/"Not provided"/i`. -/
def notProvidedAt (_prev : Option Char) (l : List Char) :
    Option (List Char × List Char × List Char) :=
  match matchCILit "\"not provided\"".data l with
  | some (c1, r1) => some ([], c1, r1)
  | none => none

/-- Matcher of a case-insensitive literal with `\b` at both ends, replaced by
`repl` (the three typo fixes `am indset`, `inagile` and their friends). -/
def typoLitAt (lit repl : String) (prev : Option Char) (l : List Char) :
    Option (List Char × List Char × List Char) :=
  if boundaryBefore prev then
    match matchCILit lit.data l with
    | some (c1, r1) =>
      if boundaryAfter r1 then some (repl.data, c1, r1) else none
    | none => none
  else none

/-- Matcher of `/\ba\s+W\b/i → 'a W'` for a literal word `W` (the
`a view` / `a level` fixes). -/
def aWordAt (word repl : String) (prev : Option Char) (l : List Char) :
    Option (List Char × List Char × List Char) :=
  if boundaryBefore prev then
    match l with
    | c1 :: r1 =>
      if c1.toLower = 'a' then
        let ws := r1.takeWhile isWsChar
        if 1 ≤ ws.length then
          match matchCILit word.data (r1.drop ws.length) with
          | some (c2, r2) =>
            if boundaryAfter r2 then some (repl.data, c1 :: (ws ++ c2), r2) else none
          | none => none
        else none
      else none
    | [] => none
  else none

/-- The consonant class `[bcdfghjklmnpqrstvwxyzBCDFGHJKLMNPQRSTVWXYZ]`. -/
def isConsonant (c : Char) : Bool :=
  isLetterAZ c &&
    !(c.toLower = 'a' || c.toLower = 'e' || c.toLower = 'i' || c.toLower = 'o' ||
      c.toLower = 'u')

/-- Matcher of the fragment-joining rule
`/\b([bcdfghjklmnpqrstvwxyz…])\s+([a-z]{2,})\b/ → '$1$2'` (the second group is
a maximal lowercase run; shrinking it cannot restore the trailing `\b`). -/
def fragmentAt (prev : Option Char) (l : List Char) :
    Option (List Char × List Char × List Char) :=
  match l with
  | c1 :: r1 =>
    if boundaryBefore prev && isConsonant c1 then
      let ws := r1.takeWhile isWsChar
      if 1 ≤ ws.length then
        let afterWs := r1.drop ws.length
        let run := afterWs.takeWhile isLowerAZ
        if 2 ≤ run.length && boundaryAfter (afterWs.drop run.length) then
          some (c1 :: run, c1 :: (ws ++ run), afterWs.drop run.length)
        else none
      else none
    else none
  | [] => none

/-- The sentence-deduplication pass: split on `[.!?]+` runs, keep the first
occurrence of every nonempty trimmed sentence (case-insensitive), and rejoin
with `'. '`. -/
def dedupSentences (l : List Char) : List Char :=
  let pieces := splitRuns isTermChar l
  let kept := (pieces.foldl
    (fun (st : List (List Char) × List (List Char)) piece =>
      let trimmed := jsTrim piece
      if ¬ (trimmed = []) ∧ ¬ (st.2.contains (jsToLower trimmed) = true) then
        (st.1 ++ [trimmed], st.2 ++ [jsToLower trimmed])
      else st) ([], [])).1
  jsJoin ". ".data kept

/-- Matcher of `/\.\s*\./ → '.'`. -/
def dotWsDotAt (_prev : Option Char) (l : List Char) :
    Option (List Char × List Char × List Char) :=
  match l with
  | '.' :: r1 =>
    let ws := r1.takeWhile isWsChar
    match r1.drop ws.length with
    | '.' :: r2 => some (['.'], '.' :: (ws ++ ['.']), r2)
    | _ => none
  | _ => none

/-- `sanitize` of `src/lib/sanitize`, passes in source order. -/
def sanitize (text : String) : String :=
  let s1 := scanReplace metadataAt (text.data.length + 1) none text.data
  let s2 := scanReplace watermark1At (s1.length + 1) none s1
  let s3 := scanReplace watermark2At (s2.length + 1) none s2
  let s4 := scanReplace seeDotAt (s3.length + 1) none s3
  let s5 := scanReplace seeEolAt (s4.length + 1) none s4
  let s6 := scanReplace figureAt (s5.length + 1) none s5
  let s7 := scanReplace lineNumAt (s6.length + 1) none s6
  let s8 := scanReplace hashNumAt (s7.length + 1) none s7
  let s9 := scanReplace evidenceAt (s8.length + 1) none s8
  let s10 := scanReplace notProvidedAt (s9.length + 1) none s9
  let s11 := scanReplace (typoLitAt "am indset" "a mindset") (s10.length + 1) none s10
  let s12 := scanReplace (typoLitAt "inagile" "in agile") (s11.length + 1) none s11
  let s13 := scanReplace (aWordAt "view" "a view") (s12.length + 1) none s12
  let s14 := scanReplace (aWordAt "level" "a level") (s13.length + 1) none s13
  let s15 := scanReplace fragmentAt (s14.length + 1) none s14
  let s16 := dedupSentences s15
  let s17 := scanReplace dotWsDotAt (s16.length + 1) none s16
  ⟨normalizeWs s17⟩

/-- The final pass of `sanitize` (and of `cleanupText`) as a standalone
function on `String`: `s.replace(/\s+/g, ' ').trim()`. -/
def normalizeWsStr (s : String) : String :=
  ⟨normalizeWs s.data⟩

/-- Shape of whitespace-collapsed text: every whitespace character is a plain
space and no two adjacent characters are both whitespace. -/
def WsShape (l : List Char) : Prop :=
  (∀ c ∈ l, isWsChar c = true → c = ' ') ∧
    l.Chain' (fun a b => ¬(isWsChar a = true ∧ isWsChar b = true))

/-- The sort relation of `.sort((a, b) => b.score - a.score)`: descending by
score (total and transitive, for the sortedness lemmas). -/
instance : IsTotal TakeawaySuggestion (fun a b => b.score ≤ a.score) :=
  ⟨fun a b => le_total b.score a.score⟩

instance : IsTrans TakeawaySuggestion (fun a b => b.score ≤ a.score) :=
  ⟨fun _ _ _ h1 h2 => le_trans h2 h1⟩

/-! ## Supporting lemmas -/

theorem dropWhile_idem (p : α → Bool) (l : List α) :
    (l.dropWhile p).dropWhile p = l.dropWhile p := by
  induction l with
  | nil => rfl
  | cons a l ih =>
    by_cases h : p a = true
    · simp only [List.dropWhile_cons, h, if_true, ih]
    · simp only [List.dropWhile_cons, h, if_false, Bool.false_eq_true]

theorem trimLeft_head (l : List Char) :
    trimLeft l = [] ∨ ∃ c r, trimLeft l = c :: r ∧ isWsChar c = false := by
  induction l with
  | nil => exact Or.inl rfl
  | cons a l ih =>
    by_cases h : isWsChar a = true
    · simpa [trimLeft, List.dropWhile_cons, h] using ih
    · right
      refine ⟨a, l, ?_, by simpa using h⟩
      simp [trimLeft, List.dropWhile_cons, h]

theorem trimRight_prefixOfSelf (l : List Char) : trimRight l <+: l := by
  rw [show l = l.reverse.reverse from (List.reverse_reverse l).symm, trimRight,
    List.reverse_reverse]
  exact List.reverse_prefix.mpr (by
    simpa [List.reverse_reverse] using List.dropWhile_suffix (l := l.reverse) isWsChar)

theorem trimRight_idem (l : List Char) : trimRight (trimRight l) = trimRight l := by
  simp [trimRight, List.reverse_reverse, dropWhile_idem]

theorem trimLeft_eq_self_of_head (l : List Char)
    (h : l = [] ∨ ∃ c r, l = c :: r ∧ isWsChar c = false) : trimLeft l = l := by
  rcases h with h | ⟨c, r, rfl, hc⟩
  · simp [h, trimLeft]
  · simp [trimLeft, List.dropWhile_cons, hc]

theorem trimLeft_trimRight_comm (l : List Char) :
    trimLeft (trimRight (trimLeft l)) = trimRight (trimLeft l) := by
  apply trimLeft_eq_self_of_head
  rcases trimLeft_head l with h | ⟨c, r, hcr, hc⟩
  · left
    simp [h, trimRight]
  · rcases hp : trimRight (trimLeft l) with _ | ⟨d, t⟩
    · exact Or.inl rfl
    · right
      have hpre := trimRight_prefixOfSelf (trimLeft l)
      rw [hp, hcr] at hpre
      obtain ⟨u, hu⟩ := hpre
      cases hu
      exact ⟨c, t, rfl, hc⟩

theorem jsTrim_idem (l : List Char) : jsTrim (jsTrim l) = jsTrim l := by
  show trimRight (trimLeft (trimRight (trimLeft l))) = trimRight (trimLeft l)
  rw [trimLeft_trimRight_comm, trimRight_idem]

theorem jsTrimStr_idem (s : String) : jsTrimStr (jsTrimStr s) = jsTrimStr s := by
  simp [jsTrimStr, jsTrim_idem]

theorem jsTrim_within (l : List Char) : jsTrim l <:+: l := by
  have h1 : trimRight (trimLeft l) <+: trimLeft l := trimRight_prefixOfSelf _
  have h2 : trimLeft l <:+ l := List.dropWhile_suffix _
  exact (List.IsPrefix.isInfix h1).trans (List.IsSuffix.isInfix h2)

theorem mem_of_mem_jsTrim {c : Char} {l : List Char} (h : c ∈ jsTrim l) : c ∈ l :=
  (jsTrim_within l).sublist.mem h

/-- Membership in `jsDedupGo`: an element is emitted iff it occurs in the
input and was not already seen. -/
theorem jsDedupGo_mem [DecidableEq α] (l : List α) :
    ∀ (seen : List α) (a : α), a ∈ jsDedupGo seen l ↔ a ∈ l ∧ a ∉ seen := by
  induction l with
  | nil => intro seen a; simp [jsDedupGo]
  | cons b rest ih =>
    intro seen a
    by_cases hb : b ∈ seen
    · rw [jsDedupGo, if_pos hb, ih]
      constructor
      · rintro ⟨h1, h2⟩
        exact ⟨List.mem_cons_of_mem _ h1, h2⟩
      · rintro ⟨h1, h2⟩
        rcases List.mem_cons.mp h1 with rfl | h1
        · exact absurd hb h2
        · exact ⟨h1, h2⟩
    · rw [jsDedupGo, if_neg hb]
      simp only [List.mem_cons, ih]
      constructor
      · rintro (rfl | ⟨h1, h2⟩)
        · exact ⟨Or.inl rfl, hb⟩
        · simp only [List.mem_cons, not_or] at h2
          exact ⟨Or.inr h1, h2.2⟩
      · rintro ⟨rfl | h1, h2⟩
        · exact Or.inl rfl
        · by_cases hab : a = b
          · exact Or.inl hab
          · refine Or.inr ⟨h1, ?_⟩
            simp only [List.mem_cons, not_or]
            exact ⟨hab, h2⟩

/-- `jsDedupGo` emits no duplicates. -/
theorem jsDedupGo_nodup [DecidableEq α] (l : List α) :
    ∀ seen : List α, (jsDedupGo seen l).Nodup := by
  induction l with
  | nil => intro seen; simp [jsDedupGo]
  | cons b rest ih =>
    intro seen
    by_cases hb : b ∈ seen
    · rw [jsDedupGo, if_pos hb]
      exact ih seen
    · rw [jsDedupGo, if_neg hb]
      refine List.Nodup.cons (fun hmem => ?_) (ih (b :: seen))
      rw [jsDedupGo_mem] at hmem
      exact hmem.2 (List.mem_cons_self _ _)

theorem jsDedup_mem [DecidableEq α] (l : List α) (a : α) : a ∈ jsDedup l ↔ a ∈ l := by
  simp [jsDedup, jsDedupGo_mem]

theorem jsDedup_toFinset [DecidableEq α] (l : List α) :
    (jsDedup l).toFinset = l.toFinset := by
  ext a
  simp [List.mem_toFinset, jsDedup_mem]

theorem jsDedup_length [DecidableEq α] (l : List α) :
    (jsDedup l).length = l.toFinset.card := by
  rw [← jsDedup_toFinset]
  exact (List.toFinset_card_of_nodup (jsDedupGo_nodup l [])).symm

/-- The pieces produced by `splitRunsGo` contain no separator character. -/
theorem splitRunsGo_pure (p : Char → Bool) (l : List Char) :
    ∀ st : Option (List Char), (∀ cur, st = some cur → ∀ c ∈ cur, p c = false) →
      ∀ piece ∈ splitRunsGo p st l, ∀ c ∈ piece, p c = false := by
  induction l with
  | nil =>
    rintro (_ | cur) hst piece hp c hc
    · simp only [splitRunsGo, List.mem_singleton] at hp
      subst hp
      simp at hc
    · simp only [splitRunsGo, List.mem_singleton] at hp
      subst hp
      exact hst cur rfl c (List.mem_reverse.mp hc)
  | cons a rest ih =>
    rintro (_ | cur) hst piece hp c hc
    · by_cases ha : p a = true
      · rw [splitRunsGo, if_pos ha] at hp
        exact ih none (by simp) piece hp c hc
      · rw [splitRunsGo, if_neg ha] at hp
        refine ih (some [a]) ?_ piece hp c hc
        rintro cur' hcur' d hd
        cases hcur'
        simp only [List.mem_singleton] at hd
        subst hd
        simpa using ha
    · by_cases ha : p a = true
      · rw [splitRunsGo, if_pos ha] at hp
        rcases List.mem_cons.mp hp with rfl | hp
        · exact hst cur rfl c (List.mem_reverse.mp hc)
        · exact ih none (by simp) piece hp c hc
      · rw [splitRunsGo, if_neg ha] at hp
        refine ih (some (a :: cur)) ?_ piece hp c hc
        rintro cur' hcur' d hd
        cases hcur'
        rcases List.mem_cons.mp hd with rfl | hd
        · simpa using ha
        · exact hst cur rfl d hd

/-- Sentences produced by `splitSentences` contain no `.`, `!` or `?`. -/
theorem splitSentences_pure (text : String) :
    ∀ s ∈ splitSentences text, ∀ c ∈ s.data, isTermChar c = false := by
  intro s hs c hc
  simp only [splitSentences, List.mem_map] at hs
  obtain ⟨piece, hpiece, rfl⟩ := hs
  exact splitRunsGo_pure isTermChar text.data (some [])
    (by rintro cur h; cases h; simp) piece hpiece c hc

/-- Counting fold of the scorer: adding one per satisfied element is `countP`. -/
theorem foldl_count (p : α → Bool) (l : List α) :
    ∀ n : Nat, l.foldl (fun sc x => if p x then sc + 1 else sc) n = n + l.countP p := by
  induction l with
  | nil => intro n; simp
  | cons a l ih =>
    intro n
    by_cases h : p a = true
    · rw [List.foldl_cons, if_pos h, ih, List.countP_cons, if_pos h]
      omega
    · rw [List.foldl_cons, if_neg h, ih, List.countP_cons, if_neg h]
      omega

/-! ## Claim C1 — the deduplication pass -/

theorem removeDuplicatesGo_eq_spec (l : List TakeawaySuggestion) :
    ∀ acc, removeDuplicatesGo acc l = dedupeSpecGo acc l := by
  induction l with
  | nil => intro acc; rfl
  | cons c rest ih =>
    intro acc
    simp only [removeDuplicatesGo, dedupeSpecGo]
    by_cases h : ∃ a ∈ acc, simThreshold < calculateSimilarity c.sentence a.sentence
    · have hany : (acc.any fun existing =>
          decide (simThreshold < calculateSimilarity c.sentence existing.sentence)) = true := by
        rw [List.any_eq_true]
        obtain ⟨a, ha, hs⟩ := h
        exact ⟨a, ha, decide_eq_true hs⟩
      rw [if_pos h, hany, if_pos rfl]
      by_cases hp : 0 < c.score - 2
      · rw [if_pos hp, if_pos hp, ih]
      · rw [if_neg hp, if_neg hp, ih]
    · have hany : (acc.any fun existing =>
          decide (simThreshold < calculateSimilarity c.sentence existing.sentence)) = false := by
        rw [List.any_eq_false]
        intro a ha
        simp only [decide_eq_true_eq]
        exact fun hs => h ⟨a, ha, hs⟩
      rw [if_neg h, hany]
      simp only [Bool.false_eq_true, if_false]
      exact ih _

/-- C1 (confirmed): the deduplication pass processes candidates in order and,
for each candidate whose similarity to some already-accepted candidate exceeds
`0.7`, subtracts exactly `2` from its score clamped at `0` and keeps it if and
only if the penalized score remains strictly greater than `0`; a candidate
with no accepted near-duplicate is accepted with its score unchanged.  The
embedded `removeDuplicates` equals the pass written from those words
(`dedupeSpec`). -/
theorem removeDuplicates_matches_spec (suggestions : List TakeawaySuggestion) :
    removeDuplicates suggestions = dedupeSpec suggestions :=
  removeDuplicatesGo_eq_spec suggestions []

/-! ## Claim C2 — the additive scorer -/

/-- C2 (amended, proved): for every sentence and every keyword, concept-term
and domain-term list, the score assigned by the scorer equals the sum of: 3
for the starter pattern (`This/It/The` + one of the starter verbs, which
include `is` and `results in`), plus 2 if one of the ten action verbs of
`actionVerbs` (which omit `is` and use `results` in place of `results in`)
occurs anywhere in the lowercased sentence, plus 1 per keyword, concept term
and domain term found as a substring, plus 1 for a word count within
`[8, 28]`. -/
theorem scoreSentence_additive (keywords conceptTerms domainTerms : List String)
    (trimmed : String) :
    scoreSentence keywords conceptTerms domainTerms trimmed =
      scoreSpecSum keywords conceptTerms domainTerms trimmed := by
  simp only [scoreSentence, scoreSpecSum, foldl_count]
  split_ifs <;> omega

/-- C2 (counterexample): on the admissible sentence
`"This is a clear sample sentence for the test"` (length 44, inside the
`[20, 200]` band) the scorer yields `4` (starter `+3`, length band `+1`),
while the claim's reading — a single fixed exposition-verb list, containing
`is`, used for both the starter bonus and the occurs-anywhere bonus — yields
`6`; the code's `+2` verb list does not contain `is`. -/
theorem scoreSentence_claim_counterexample :
    20 ≤ ("This is a clear sample sentence for the test" : String).length ∧
    ("This is a clear sample sentence for the test" : String).length ≤ 200 ∧
    scoreSentence [] [] [] "This is a clear sample sentence for the test" = 4 ∧
    scoreClaimSum [] [] [] "This is a clear sample sentence for the test" = 6 ∧
    scoreSentence [] [] [] "This is a clear sample sentence for the test" ≠
      scoreClaimSum [] [] [] "This is a clear sample sentence for the test" := by
  decide

/-! ## Claim C4 — the similarity measure -/

theorem simInter_eq_card (a b : String) (ha : (simWords a).Nodup) :
    simInter a b = ((simWords a).toFinset ∩ (simWords b).toFinset).card := by
  have hfc : (simWords a).filter (fun w => (simWords b).contains w) =
      (simWords a).filter (fun w => decide (w ∈ (simWords b).toFinset)) := by
    apply List.filter_congr
    intro x _
    by_cases h : x ∈ simWords b <;> simp [h]
  rw [simInter, hfc]
  have hnd : ((simWords a).filter (fun w => decide (w ∈ (simWords b).toFinset))).Nodup :=
    ha.filter _
  rw [← List.toFinset_card_of_nodup hnd, List.toFinset_filter]
  congr 1
  simp only [decide_eq_true_eq]
  exact Finset.filter_mem_eq_inter

theorem simUnion_eq_card (a b : String) :
    simUnion a b = ((simWords a).toFinset ∪ (simWords b).toFinset).card := by
  rw [simUnion, jsDedup_length, List.toFinset_append]

/-- C4 (amended, proved): when neither sentence has a repeated word
(`Nodup` word lists), `calculateSimilarity` is exactly the Jaccard ratio of
the lowercased word sets, is symmetric, and never exceeds `1`.  (With repeated
words the intersection is counted with multiplicity from the first argument,
and none of the three properties survives — see the counterexample.) -/
theorem calculateSimilarity_jaccard (a b : String)
    (ha : (simWords a).Nodup) (hb : (simWords b).Nodup) :
    calculateSimilarity a b =
      (((simWords a).toFinset ∩ (simWords b).toFinset).card : ℚ) /
        (((simWords a).toFinset ∪ (simWords b).toFinset).card : ℚ) ∧
    calculateSimilarity a b = calculateSimilarity b a ∧
    calculateSimilarity a b ≤ 1 := by
  have hab : calculateSimilarity a b =
      (((simWords a).toFinset ∩ (simWords b).toFinset).card : ℚ) /
        (((simWords a).toFinset ∪ (simWords b).toFinset).card : ℚ) := by
    rw [calculateSimilarity, simInter_eq_card a b ha, simUnion_eq_card]
  have hba : calculateSimilarity b a =
      (((simWords b).toFinset ∩ (simWords a).toFinset).card : ℚ) /
        (((simWords b).toFinset ∪ (simWords a).toFinset).card : ℚ) := by
    rw [calculateSimilarity, simInter_eq_card b a hb, simUnion_eq_card]
  refine ⟨hab, ?_, ?_⟩
  · rw [hab, hba, Finset.inter_comm, Finset.union_comm]
  · rw [hab]
    apply div_le_one_of_le₀
    · exact_mod_cast Finset.card_le_card Finset.inter_subset_union
    · positivity

/-- C4 (witness for the amended claim): the sentences `"ab cd"` and `"cd ef"`
have duplicate-free word lists, and the amended claim holds at them. -/
theorem calculateSimilarity_jaccard_witness :
    (simWords "ab cd").Nodup ∧ (simWords "cd ef").Nodup ∧
    (calculateSimilarity "ab cd" "cd ef" =
        (((simWords "ab cd").toFinset ∩ (simWords "cd ef").toFinset).card : ℚ) /
          (((simWords "ab cd").toFinset ∪ (simWords "cd ef").toFinset).card : ℚ) ∧
      calculateSimilarity "ab cd" "cd ef" = calculateSimilarity "cd ef" "ab cd" ∧
      calculateSimilarity "ab cd" "cd ef" ≤ 1) :=
  ⟨by decide, by decide,
    calculateSimilarity_jaccard "ab cd" "cd ef" (by decide) (by decide)⟩

/-- C4 (counterexample): with a repeated word the similarity exceeds `1`
(`calculateSimilarity "a a" "a" = 2/1`), so it is not the Jaccard ratio of
word sets, which never exceeds `1`. -/
theorem calculateSimilarity_gt_one_counterexample :
    1 < calculateSimilarity "a a" "a" := by
  have h1 : simInter "a a" "a" = 2 := by decide
  have h2 : simUnion "a a" "a" = 1 := by decide
  rw [calculateSimilarity, h1, h2]
  norm_num

/-! ## Claim C5 — idempotence properties of `sanitize` -/

theorem collapseWsGo_true_head (l : List Char) :
    ∀ c r, collapseWsGo true l = c :: r → isWsChar c = false := by
  induction l with
  | nil => intro c r h; cases h
  | cons a rest ih =>
    intro c r h
    by_cases ha : isWsChar a = true
    · rw [collapseWsGo, if_pos ha, if_pos rfl] at h
      exact ih c r h
    · rw [collapseWsGo, if_neg ha] at h
      cases h
      simpa using ha

theorem collapseWsGo_shape (l : List Char) : ∀ b, WsShape (collapseWsGo b l) := by
  induction l with
  | nil => intro b; exact ⟨by simp [collapseWsGo], by simp [collapseWsGo]⟩
  | cons a rest ih =>
    intro b
    by_cases ha : isWsChar a = true
    · cases b
      · rw [collapseWsGo, if_pos ha, if_neg (by simp)]
        constructor
        · intro c hc _
          rcases List.mem_cons.mp hc with rfl | hc
          · rfl
          · exact (ih true).1 c hc ‹_›
        · rw [List.chain'_cons']
          refine ⟨?_, (ih true).2⟩
          intro x hx
          rcases hrest : collapseWsGo true rest with _ | ⟨d, t⟩
          · rw [hrest] at hx
            cases hx
          · rw [hrest] at hx
            simp only [List.head?_cons, Option.mem_def] at hx
            have hd := collapseWsGo_true_head rest d t hrest
            cases Option.some.inj hx
            intro hcontra
            rw [hd] at hcontra
            exact Bool.false_ne_true hcontra.2
      · rw [collapseWsGo, if_pos ha, if_pos rfl]
        exact ih true
    · rw [show collapseWsGo b (a :: rest) = a :: collapseWsGo false rest by
        cases b <;> simp [collapseWsGo, ha]]
      constructor
      · intro c hc hwc
        rcases List.mem_cons.mp hc with rfl | hc
        · exact absurd hwc (by simpa using ha)
        · exact (ih false).1 c hc hwc
      · rw [List.chain'_cons']
        refine ⟨?_, (ih false).2⟩
        intro h _
        simp [ha]

theorem wsShape_tail {a : Char} {rest : List Char} (h : WsShape (a :: rest)) :
    WsShape rest :=
  ⟨fun c hc => h.1 c (List.mem_cons_of_mem _ hc), (List.chain'_cons'.mp h.2).2⟩

theorem collapseWsGo_fixed (l : List Char) (h : WsShape l) :
    collapseWsGo false l = l ∧
      ((l.head?.all fun c => !isWsChar c) = true → collapseWsGo true l = l) := by
  induction l with
  | nil => exact ⟨rfl, fun _ => rfl⟩
  | cons a rest ih =>
    have hrest := wsShape_tail h
    by_cases ha : isWsChar a = true
    · have haSp : a = ' ' := h.1 a (List.mem_cons_self _ _) ha
      have hhead : (rest.head?.all fun c => !isWsChar c) = true := by
        rcases hr : rest with _ | ⟨d, t⟩
        · rfl
        · have := (List.chain'_cons'.mp h.2).1 d (by simp [hr])
          have hd : isWsChar d = false := by
            by_cases hdw : isWsChar d = true
            · exact absurd ⟨ha, hdw⟩ this
            · simpa using hdw
          simp [hd]
      have htrue : collapseWsGo true rest = rest := (ih hrest).2 hhead
      constructor
      · rw [collapseWsGo, if_pos ha, if_neg (by simp), htrue, haSp]
      · intro hcontra
        simp [ha] at hcontra
    · constructor
      · rw [collapseWsGo, if_neg ha, (ih hrest).1]
      · intro _
        rw [collapseWsGo, if_neg ha, (ih hrest).1]

theorem wsShape_of_within {l' l : List Char} (hinf : l' <:+: l) (h : WsShape l) :
    WsShape l' :=
  ⟨fun c hc => h.1 c (hinf.sublist.mem hc), List.Chain'.infix h.2 hinf⟩

theorem normalizeWs_idem (l : List Char) :
    normalizeWs (normalizeWs l) = normalizeWs l := by
  show jsTrim (collapseWsGo false (jsTrim (collapseWsGo false l))) =
    jsTrim (collapseWsGo false l)
  have hs : WsShape (collapseWsGo false l) := collapseWsGo_shape l false
  have ht : WsShape (jsTrim (collapseWsGo false l)) :=
    wsShape_of_within (jsTrim_within _) hs
  rw [(collapseWsGo_fixed _ ht).1, jsTrim_idem]

/-- C5 (amended, proved): `sanitize` output is a fixed point of the final
whitespace-normalization pass — `normalizeWsStr (sanitize x) = sanitize x` for
every input, because that pass is idempotent.  (Idempotence of `sanitize` as a
whole fails: a second pass can re-fire the consonant-joining repair — see the
counterexample.) -/
theorem sanitize_normalizeWs_fixed (x : String) :
    normalizeWsStr (sanitize x) = sanitize x := by
  simp only [sanitize, normalizeWsStr]
  exact congrArg String.mk (normalizeWs_idem _)

/-- C5 (counterexample): `sanitize` is not idempotent.  On `"c d ef"` the
fragment-joining pass produces `"c def"`, and a second application joins
again, producing `"cdef"`. -/
theorem sanitize_not_idempotent_counterexample :
    sanitize "c d ef" = "c def" ∧ sanitize (sanitize "c d ef") = "cdef" ∧
      sanitize (sanitize "c d ef") ≠ sanitize "c d ef" := by
  decide

/-! ## Claim C9 — the input-too-short gate -/

/-- C9 (confirmed): for every excerpt whose word count (as the generator
measures it, on the cleaned excerpt) is below 300, generation produces no
note: the current note state is returned unchanged together with the
input-too-short signal, and no suggestions are produced. -/
theorem generateStep_inputTooShort (prev : Option CornellNote) (strictMode : Bool)
    (domainVocabulary : String) (selectedTakeaways : List String) (today excerpt : String)
    (h1 : jsTrimStr excerpt ≠ "")
    (h2 : (splitWsStr (jsTrimStr (cleanupTextV1 excerpt))).length < 300) :
    generateStep prev strictMode domainVocabulary selectedTakeaways today excerpt =
      (prev, GenSignal.tooShort, []) := by
  simp only [generateStep]
  rw [if_neg h1, if_pos h2]

/-- C9 (witness): a concrete 2-word excerpt is rejected with `tooShort` and
the note state (here `none`) is unchanged. -/
theorem generateStep_inputTooShort_witness :
    generateStep none false "" [] "2026-10-11" "hello world" =
      (none, GenSignal.tooShort, []) :=
  generateStep_inputTooShort none false "" [] "2026-10-11" "hello world"
    (by decide) (by decide)

/-! ## Claim C6 — takeaway count bounds in non-strict mode -/

/-- C6 (amended, proved): in non-strict mode the takeaway list never exceeds
7 entries, and it reaches the lower bound of 5 exactly when the text supplies
enough qualifying sentences: whenever the key-concept sentences
(`takeawayPhase1`) and the fallback pool (`takeawayPhase2Pool`) together
number at least 5.  Without that supply, generation still succeeds with fewer
(even zero) takeaways — see the counterexample. -/
theorem generateTakeaways_nonstrict_bounds (text : String) :
    (generateTakeawaysV1 false text).length ≤ 7 ∧
    (5 ≤ (takeawayPhase1 text).length + (takeawayPhase2Pool text).length →
      5 ≤ (generateTakeawaysV1 false text).length) := by
  simp only [generateTakeawaysV1, Bool.false_eq_true, if_false]
  by_cases h : (takeawayPhase1 text).length < 5
  · rw [if_pos h]
    refine ⟨?_, fun h5 => ?_⟩
    · simp only [List.length_take]
      omega
    · simp only [List.length_take, List.length_append, List.length_map]
      omega
  · rw [if_neg h]
    refine ⟨?_, fun h5 => ?_⟩
    · simp only [List.length_take]
      omega
    · simp only [List.length_take]
      omega

/-- C6 (witness): a text with five qualifying key-concept sentences yields
between 5 and 7 takeaways. -/
theorem generateTakeaways_nonstrict_bounds_witness :
    (generateTakeawaysV1 false ("An important note on planning and scope here. An important note on delivery and value here. An important note on mindset and context here. An important note on horizons and scale here. An important note on practices and teams here.")).length ≤ 7 ∧
    5 ≤ (generateTakeawaysV1 false ("An important note on planning and scope here. An important note on delivery and value here. An important note on mindset and context here. An important note on horizons and scale here. An important note on practices and teams here.")).length :=
  ⟨(generateTakeaways_nonstrict_bounds _).1,
    (generateTakeaways_nonstrict_bounds _).2 (by decide)⟩

/-- C6 (counterexample): a 300-word excerpt consisting of one enormous
sentence passes the word-count gate and generation succeeds in non-strict
mode, yet the assembled note has zero takeaways — the claimed lower bound of
5 does not hold. -/
theorem generateTakeaways_lower_bound_counterexample :
    jsTrimStr (String.intercalate " " (List.replicate 300 "ab")) ≠ "" ∧
    300 ≤ (splitWsStr (jsTrimStr (cleanupTextV1
      (String.intercalate " " (List.replicate 300 "ab"))))).length ∧
    (generateStep none false "" [] "2026-10-11"
      (String.intercalate " " (List.replicate 300 "ab"))).2.1 = GenSignal.success ∧
    ((generateStep none false "" [] "2026-10-11"
      (String.intercalate " " (List.replicate 300 "ab"))).1.map
        (fun n => n.takeaways.length)) = some 0 := by
  decide

/-! ## Claims C10 and C3 — invariants of the suggestion extraction -/

/-- Any predicate preserved by the score penalty also survives the
deduplication pass. -/
theorem removeDuplicatesGo_mem_pred (P : TakeawaySuggestion → Prop)
    (hpen : ∀ c : TakeawaySuggestion, P c → 0 < c.score - 2 →
      P { c with score := c.score - 2 })
    (l : List TakeawaySuggestion) :
    ∀ acc, (∀ s ∈ acc, P s) → (∀ s ∈ l, P s) →
      ∀ s ∈ removeDuplicatesGo acc l, P s := by
  induction l with
  | nil => intro acc hacc _ s hs; exact hacc s hs
  | cons c rest ih =>
    intro acc hacc hl s hs
    have hltail : ∀ x ∈ rest, P x := fun x hx => hl x (List.mem_cons_of_mem _ hx)
    simp only [removeDuplicatesGo] at hs
    split at hs
    · split at hs
      · refine ih _ ?_ hltail s hs
        intro x hx
        rcases List.mem_append.mp hx with hx | hx
        · exact hacc x hx
        · rw [List.mem_singleton] at hx
          rw [hx]
          exact hpen c (hl c (List.mem_cons_self _ _)) (by assumption)
      · exact ih _ hacc hltail s hs
    · refine ih _ ?_ hltail s hs
      intro x hx
      rcases List.mem_append.mp hx with hx | hx
      · exact hacc x hx
      · rw [List.mem_singleton] at hx
        rw [hx]
        exact hl c (List.mem_cons_self _ _)

/-- Every suggestion collected by the earlier snapshot's scoring loop has a
positive score. -/
theorem collectGoV1_score_ge_one (kw ct dt : List String) (l : List String) :
    ∀ used acc, (∀ s ∈ acc, 1 ≤ s.score) →
      ∀ s ∈ collectGoV1 kw ct dt used acc l, 1 ≤ s.score := by
  induction l with
  | nil => intro used acc hacc s hs; exact hacc s hs
  | cons sentence rest ih =>
    intro used acc hacc s hs
    simp only [collectGoV1] at hs
    split at hs
    · exact ih _ _ hacc s hs
    · split at hs
      · refine ih _ _ ?_ s hs
        intro x hx
        rcases List.mem_append.mp hx with hx | hx
        · exact hacc x hx
        · rcases List.mem_singleton.mp hx with rfl
          simpa using (by assumption : 0 < scoreSentence kw ct dt (jsTrimStr sentence))
      · exact ih _ _ hacc s hs

/-- C10 (confirmed, implicit claim): every suggestion returned by the
takeaway-suggestion extraction has score at least 1, the returned list is
sorted by score in non-increasing order, and it has at most 12 entries. -/
theorem extractTakeawaySuggestionsV1_invariants (domainVocabulary text : String)
    (keywords : List String) :
    (∀ s ∈ extractTakeawaySuggestionsV1 domainVocabulary text keywords, 1 ≤ s.score) ∧
    (extractTakeawaySuggestionsV1 domainVocabulary text keywords).Pairwise
      (fun a b => b.score ≤ a.score) ∧
    (extractTakeawaySuggestionsV1 domainVocabulary text keywords).length ≤ 12 := by
  refine ⟨?_, ?_, ?_⟩
  · intro s hs
    simp only [extractTakeawaySuggestionsV1] at hs
    have h1 := (List.take_sublist 12 _).subset hs
    have h2 := (List.perm_insertionSort
      (fun a b : TakeawaySuggestion => b.score ≤ a.score) _).mem_iff.mp h1
    refine removeDuplicatesGo_mem_pred (fun c => 1 ≤ c.score) ?_ _ [] (by simp) ?_ s h2
    · intro c _ hc
      show 1 ≤ c.score - 2
      omega
    · exact collectGoV1_score_ge_one _ _ _ _ _ [] (by simp)
  · simp only [extractTakeawaySuggestionsV1]
    exact List.Pairwise.sublist (List.take_sublist 12 _) (List.sorted_insertionSort _ _)
  · simp only [extractTakeawaySuggestionsV1, List.length_take]
    omega

/-- C10 (witness): on a concrete one-sentence text the extraction returns a
single suggestion with score 7; the three invariants hold there. -/
theorem extractTakeawaySuggestionsV1_invariants_witness :
    1 ≤ (⟨"This provides business value to teams in agile settings today", 7, false⟩ :
      TakeawaySuggestion).score ∧
    (extractTakeawaySuggestionsV1 ""
      "This provides business value to teams in agile settings today." []).Pairwise
      (fun a b => b.score ≤ a.score) ∧
    (extractTakeawaySuggestionsV1 ""
      "This provides business value to teams in agile settings today." []).length ≤ 12 :=
  ⟨(extractTakeawaySuggestionsV1_invariants ""
      "This provides business value to teams in agile settings today." []).1 _ (by decide),
    (extractTakeawaySuggestionsV1_invariants "" _ []).2.1,
    (extractTakeawaySuggestionsV1_invariants "" _ []).2.2⟩

theorem filterQuestionTakeaways_transformed (s : String) :
    (filterQuestionTakeaways s).transformed = none := by
  simp only [filterQuestionTakeaways]
  split_ifs <;> rfl

theorem filterQuestionTakeaways_isValid (s : String) :
    (filterQuestionTakeaways s).isValid = true ↔
      isQuestionSentence (jsTrimStr s) = false := by
  simp only [filterQuestionTakeaways]
  split_ifs with h1 h2 h3 <;> simp_all

/-- Every suggestion collected by the current component's scoring loop has a
non-question sentence. -/
theorem collectGoV2_not_question (kw ct dt : List String) (l : List String) :
    ∀ used acc, (∀ s ∈ acc, isQuestionSentence s.sentence = false) →
      ∀ s ∈ collectGoV2 kw ct dt used acc l, isQuestionSentence s.sentence = false := by
  induction l with
  | nil => intro used acc hacc s hs; exact hacc s hs
  | cons sentence rest ih =>
    intro used acc hacc s hs
    simp only [collectGoV2] at hs
    split at hs
    · exact ih _ _ hacc s hs
    · split at hs
      · split at hs
        · refine ih _ _ ?_ s hs
          intro x hx
          rcases List.mem_append.mp hx with hx | hx
          · exact hacc x hx
          · rcases List.mem_singleton.mp hx with rfl
            simp only [filterQuestionTakeaways_transformed, Option.getD_none]
            have hv : (filterQuestionTakeaways (jsTrimStr sentence)).isValid = true := by
              assumption
            rw [filterQuestionTakeaways_isValid, jsTrimStr_idem] at hv
            exact hv
        · exact ih _ _ hacc s hs
      · exact ih _ _ hacc s hs

/-- C3 (confirmed): no sentence identified as a question — ending in `?` or
starting with one of the fixed interrogative/auxiliary words — ever appears in
the suggestion list returned by the takeaway extraction of the current
component (`filterQuestionTakeaways` rejects every question; the designed-for
transformation never fires). -/
theorem extractTakeawaySuggestions_no_questions (domainVocabulary text : String)
    (keywords : List String) :
    ∀ s ∈ extractTakeawaySuggestions domainVocabulary text keywords,
      isQuestionSentence s.sentence = false := by
  intro s hs
  simp only [extractTakeawaySuggestions] at hs
  have h1 := (List.take_sublist 12 _).subset hs
  have h2 := (List.perm_insertionSort
    (fun a b : TakeawaySuggestion => b.score ≤ a.score) _).mem_iff.mp h1
  refine removeDuplicatesGo_mem_pred (fun c => isQuestionSentence c.sentence = false)
    ?_ _ [] (by simp) ?_ s h2
  · intro c hc _
    exact hc
  · exact collectGoV2_not_question _ _ _ _ _ [] (by simp)

/-- C3 (witness): on a concrete declarative sentence the extraction returns a
suggestion, and that suggestion is not a question. -/
theorem extractTakeawaySuggestions_no_questions_witness :
    isQuestionSentence (⟨"This provides business value to teams in agile settings today",
      7, false⟩ : TakeawaySuggestion).sentence = false :=
  extractTakeawaySuggestions_no_questions ""
    "This provides business value to teams in agile settings today." [] _ (by decide)

/-! ## Claim C7 — answer shape -/

theorem mkQA_answer (isStrict : Bool) (qtext s : String) :
    (mkQA isStrict qtext s).answer = getUniqueAnswer isStrict s := by
  simp only [mkQA]
  split_ifs <;> rfl

theorem endsTermStr_false_of_noTerm (s : String)
    (h : ∀ c ∈ s.data, isTermChar c = false) : endsTermStr s = false := by
  rcases hlast : s.data.getLast? with _ | c
  · simp [endsTermStr, jsEndsWithChar, hlast]
  · obtain ⟨hne, heq⟩ :=
      List.mem_getLast?_eq_getLast (show c ∈ s.data.getLast? from hlast)
    have hmem : c ∈ s.data := heq ▸ List.getLast_mem hne
    have hterm := h c hmem
    simp only [isTermChar, Bool.or_eq_false_iff, decide_eq_false_iff_not] at hterm
    obtain ⟨⟨h1, h2⟩, h3⟩ := hterm
    simp [endsTermStr, jsEndsWithChar, hlast, h1, h2, h3]

theorem getUniqueAnswer_strict_ok (s : String)
    (h : ∀ c ∈ s.data, isTermChar c = false) :
    endsTermStr (getUniqueAnswer true s) = true ∧
      jsIncludesStr (getUniqueAnswer true s) "..." = false := by
  have htr : ∀ c ∈ (jsTrimStr s).data, isTermChar c = false := fun c hc =>
    h c (mem_of_mem_jsTrim hc)
  have hne : endsTermStr (jsTrimStr s) = false := endsTermStr_false_of_noTerm _ htr
  have hans : getUniqueAnswer true s = jsTrimStr s ++ "." := by
    simp [getUniqueAnswer, hne]
  have hdot : '.' ∉ (jsTrimStr s).data := by
    intro hmem
    have := htr '.' hmem
    simp [isTermChar] at this
  rw [hans]
  constructor
  · have hdata : (jsTrimStr s ++ ".").data = (jsTrimStr s).data ++ ['.'] := rfl
    simp [endsTermStr, jsEndsWithChar, hdata, List.getLast?_concat]
  · apply decide_eq_false
    intro hinf
    have hcount := hinf.sublist.count_le '.'
    have h3 : List.count '.' ("..." : String).data = 3 := by decide
    have h1 : List.count '.' ((jsTrimStr s).data ++ ['.']) = 1 := by
      rw [List.count_append, List.count_eq_zero.mpr hdot]
      decide
    rw [h3] at hcount
    have : List.count '.' (jsTrimStr s ++ "." : String).data =
        List.count '.' ((jsTrimStr s).data ++ ['.']) := rfl
    omega

theorem mkQA_strict_ok (qtext s : String)
    (h : ∀ c ∈ s.data, isTermChar c = false) :
    endsTermStr (mkQA true qtext s).answer = true ∧
      jsIncludesStr (mkQA true qtext s).answer "..." = false := by
  rw [mkQA_answer]
  exact getUniqueAnswer_strict_ok s h

theorem q1Step_inv (sentences : List String)
    (hsent : ∀ s ∈ sentences, ∀ c ∈ s.data, isTermChar c = false) :
    ∀ qa ∈ (q1Step true sentences).1,
      endsTermStr qa.answer = true ∧ jsIncludesStr qa.answer "..." = false := by
  cases sentences with
  | nil => intro qa hqa; simp [q1Step] at hqa
  | cons s0 rest =>
    intro qa hqa
    simp only [q1Step, List.mem_singleton] at hqa
    rw [hqa]
    exact mkQA_strict_ok _ s0 (hsent s0 (List.mem_cons_self _ _))

theorem qTemplateStep_inv (qtext : String) (keys : List String)
    (sentences : List String) (st : List QAItem × List String)
    (hsent : ∀ s ∈ sentences, ∀ c ∈ s.data, isTermChar c = false)
    (hst : ∀ qa ∈ st.1,
      endsTermStr qa.answer = true ∧ jsIncludesStr qa.answer "..." = false) :
    ∀ qa ∈ (qTemplateStep true qtext keys sentences st).1,
      endsTermStr qa.answer = true ∧ jsIncludesStr qa.answer "..." = false := by
  simp only [qTemplateStep]
  cases hfind : findTemplateSentence true st.2 keys sentences with
  | none => exact hst
  | some s =>
    intro qa hqa
    have hqa2 : qa ∈ (if st.1.length < 5 then
        (st.1 ++ [mkQA true qtext s], st.2 ++ [getUniqueAnswer true s]) else st).1 := hqa
    by_cases hlen : st.1.length < 5
    · rw [if_pos hlen] at hqa2
      rcases List.mem_append.mp hqa2 with hqa | hqa
      · exact hst qa hqa
      · rw [List.mem_singleton] at hqa
        rw [hqa]
        have hsmem : s ∈ sentences := by
          simp only [findTemplateSentence] at hfind
          exact List.mem_of_find?_eq_some hfind
        exact mkQA_strict_ok _ s (hsent s hsmem)
    · rw [if_neg hlen] at hqa2
      exact hst qa hqa2

theorem fillGo_inv (remaining : List String)
    (hrem : ∀ s ∈ remaining, ∀ c ∈ s.data, isTermChar c = false) (stepN : Nat) :
    ∀ (fuel index : Nat) (st : List QAItem × List String),
      (∀ qa ∈ st.1,
        endsTermStr qa.answer = true ∧ jsIncludesStr qa.answer "..." = false) →
      ∀ qa ∈ (fillGo true remaining stepN fuel index st).1,
        endsTermStr qa.answer = true ∧ jsIncludesStr qa.answer "..." = false := by
  intro fuel
  induction fuel with
  | zero => intro index st hst qa hqa; exact hst qa hqa
  | succ fuel ih =>
    intro index st hst qa hqa
    simp only [fillGo] at hqa
    split at hqa
    · have hsnoterm : ∀ c ∈ (remaining.getD index "").data, isTermChar c = false := by
        by_cases hidx : index < remaining.length
        · intro c hc
          refine hrem _ ?_ c hc
          rw [List.getD_eq_getElem?_getD, List.getElem?_eq_getElem hidx]
          exact List.getElem_mem _
        · rw [List.getD_eq_getElem?_getD, List.getElem?_eq_none (by omega)]
          intro c hc
          simp at hc
      refine ih _ _ ?_ qa hqa
      by_cases hc : (!st.2.contains (getUniqueAnswer true (remaining.getD index ""))) = true
      · rw [if_pos hc]
        intro x hx
        rcases List.mem_append.mp hx with hx | hx
        · exact hst x hx
        · rw [List.mem_singleton] at hx
          rw [hx]
          exact mkQA_strict_ok _ _ hsnoterm
      · rw [if_neg hc]
        exact hst
    · exact hst qa hqa

theorem fillerStep_inv (sentences : List String) (st : List QAItem × List String)
    (hsent : ∀ s ∈ sentences, ∀ c ∈ s.data, isTermChar c = false)
    (hst : ∀ qa ∈ st.1,
      endsTermStr qa.answer = true ∧ jsIncludesStr qa.answer "..." = false) :
    ∀ qa ∈ (fillerStep true sentences st).1,
      endsTermStr qa.answer = true ∧ jsIncludesStr qa.answer "..." = false := by
  simp only [fillerStep]
  split
  · exact fillGo_inv _ (fun s hs => hsent s (List.mem_of_mem_filter hs)) _ _ _ _ hst
  · exact hst

/-- C7 (amended, proved): in strict mode, every Q&A answer produced by the
question generator ends with terminal punctuation (`.`, `!` or `?`) and
contains no ellipsis `'...'`.  (In non-strict mode this fails — see the
counterexample: answers are the raw trimmed sentences, without terminal
punctuation, and long answers are truncated with `'...'`.) -/
theorem generateQuestionsV1_strict_answers (text : String) :
    ∀ qa ∈ generateQuestionsV1 text true,
      endsTermStr qa.answer = true ∧ jsIncludesStr qa.answer "..." = false := by
  have hsent : ∀ s ∈ (splitSentences text).filter (fun s => 20 < (jsTrimStr s).length),
      ∀ c ∈ s.data, isTermChar c = false := fun s hs =>
    splitSentences_pure text s (List.mem_of_mem_filter hs)
  intro qa hqa
  simp only [generateQuestionsV1] at hqa
  have hqa' := (List.take_sublist 5 _).subset hqa
  exact fillerStep_inv _ _ hsent
    (qTemplateStep_inv _ _ _ _ hsent
      (qTemplateStep_inv _ _ _ _ hsent
        (qTemplateStep_inv _ _ _ _ hsent
          (qTemplateStep_inv _ _ _ _ hsent
            (q1Step_inv _ hsent))))) qa hqa'

/-- C7 (witness): on a concrete one-sentence text in strict mode, the single
generated answer ends in `.` and contains no ellipsis. -/
theorem generateQuestionsV1_strict_answers_witness :
    endsTermStr (⟨"What is the primary subject discussed in this excerpt?",
        "The agile method provides business value to teams every day.",
        some "The agile method provides business value to teams every day",
        none⟩ : QAItem).answer = true ∧
    jsIncludesStr (⟨"What is the primary subject discussed in this excerpt?",
        "The agile method provides business value to teams every day.",
        some "The agile method provides business value to teams every day",
        none⟩ : QAItem).answer "..." = false :=
  generateQuestionsV1_strict_answers
    "The agile method provides business value to teams every day" _ (by decide)

/-- C7 (counterexample): in non-strict mode the claim fails — the generated
answer is the raw trimmed sentence, which does not end with terminal
punctuation. -/
theorem generateQuestions_nonstrict_counterexample :
    (generateQuestionsV1 "The agile approach provides business value to teams" false).any
      (fun qa => !(endsTermStr qa.answer)) = true := by
  decide

/-! ## Claim C8 — validation is advisory-only -/

/-- C8 (confirmed): running the validation of the current component
(`validateEvidence`, which applies `validateStrictMode`) never mutates the
note's content: title, date, module, keywords, the entire question list
(including each answer, evidence and needsReview field), takeaways and
summary are returned exactly as they were; only `isValid` and
`validationErrors` are annotated (in strict mode). -/
theorem validateEvidence_frame (strictMode : Bool) (selectedTakeaways : List String)
    (note : CornellNote) :
    (validateEvidence strictMode selectedTakeaways note).title = note.title ∧
    (validateEvidence strictMode selectedTakeaways note).date = note.date ∧
    (validateEvidence strictMode selectedTakeaways note).module = note.module ∧
    (validateEvidence strictMode selectedTakeaways note).keywords = note.keywords ∧
    (validateEvidence strictMode selectedTakeaways note).questions = note.questions ∧
    (validateEvidence strictMode selectedTakeaways note).takeaways = note.takeaways ∧
    (validateEvidence strictMode selectedTakeaways note).summary = note.summary := by
  by_cases h : strictMode = true
  · simp [validateEvidence, h]
  · simp [validateEvidence, h]
